import Mathlib

/-!
# Two-pass layout engine (`layout_utils.hpp`)

A shallow embedding of the block tree of `layout_utils.hpp` and of its two
passes, `measure` and `render`.

* C++ `int` values are mathematical integers (`Int`); signed overflow is
  undefined behaviour in C++ and is outside the model.  `/` on `int` is
  `Int.tdiv` (truncation toward zero).
* The mutable fields of a node (`_measured`, `_blockDimensions`,
  `_measureMaxBaseline`) are fields of the node value; `measure` and `render`
  return the updated node next to their result.
* The host display is the list of drawing commands issued on it.
* `esphome::display::Font` is known only through its `measure` method.
-/

namespace LayoutUtils

/-! ## Value types -/

/-- Out-parameters of `Font::measure(text, &width, &x_offset, &baseline, &height)`. -/
structure FontMetrics where
  width : Int
  x_offset : Int
  baseline : Int
  height : Int

/-- Host font, seen through its `measure` method only. -/
structure Font where
  measure : String → FontMetrics

/-- Source: `struct TextDesc`. -/
structure TextDesc where
  font : Font
  text : String

/-- Source: `struct Dimensions`. -/
structure Dimensions where
  width : Int
  height : Int
deriving DecidableEq, Repr

/-- Source: `struct Rect`. -/
structure Rect where
  x : Int
  y : Int
  width : Int
  height : Int
deriving DecidableEq, Repr

/-! ## `enum Align` (a bit mask) -/

def SPACE_BETWEEN : Nat := 0
def START : Nat := 1 <<< 0
def CENTER : Nat := 1 <<< 1
def END : Nat := 1 <<< 2
def TOP : Nat := 0
def MIDDLE : Nat := 1 <<< 3
def BOTTOM : Nat := 1 <<< 4
def STRETCH : Nat := 1 <<< 5
def LEFT : Nat := TOP
def RIGHT : Nat := BOTTOM

/-! ## The display, as a log of drawing commands -/

/-- The one `TextAlign` mode the engine names. -/
inductive TextAlign where
  | BASELINE_LEFT
deriving DecidableEq, Repr

/-- The one colour constant the engine names. -/
inductive Color where
  | COLOR_OFF
deriving DecidableEq, Repr

/-- Calls made on the `DisplayBuffer`. -/
inductive DrawCmd where
  | print (x y : Int) (font : Font) (text : String)
  | print_aligned (x y : Int) (font : Font) (align : TextAlign) (text : String)
  | filled_rectangle (x y width height : Int)
  | filled_rectangle_color (x y width height : Int) (color : Color)
  | rectangle (x y width height : Int)
  | printf (x y : Int) (font : Font) (format : String) (args : List Int)

/-! ## Blocks -/

/-- Source: `class TextBlock` (with the `_measured` field it inherits). -/
structure TextBlock where
  measured : Dimensions
  desc : TextDesc

/-- The class hierarchy under `Block`; the first field of every constructor is
the inherited `_measured`. -/
inductive Block where
  | text (b : TextBlock)
  | textRow (measured : Dimensions) (blocks : List TextBlock)
      (blockDimensions : List Dimensions) (measureMaxBaseline : Int)
  | padding (measured : Dimensions) (width height : Int)
  | horizontalLine (measured : Dimensions) (thickness h_padding v_padding : Int)
  | expand (measured : Dimensions) (inner : Block)
  | panel (measured : Dimensions) (vertical : Bool) (align : Nat)
      (blocks : List Block) (blockDimensions : List Dimensions)
  | debug (measured : Dimensions) (font : Option Font) (inner : Block)

/-- Source: `TextRowBlock(textBlocks)`. -/
def TextRowBlock.new (textBlocks : List TextBlock) : Block :=
  .textRow ⟨0, 0⟩ textBlocks (List.replicate textBlocks.length ⟨0, 0⟩) 0

/-- Source: `PaddingBlock(width, height)`. -/
def PaddingBlock.new (width height : Int) : Block :=
  .padding ⟨0, 0⟩ width height

/-- Source: `HorizontalLineBlock(thickness, h_padding, v_padding)`. -/
def HorizontalLineBlock.new (thickness h_padding v_padding : Int) : Block :=
  .horizontalLine ⟨0, 0⟩ thickness h_padding v_padding

/-- Source: `ExpandBlock(inner)`. -/
def ExpandBlock.new (inner : Block) : Block :=
  .expand ⟨0, 0⟩ inner

/-- Source: `PanelBlock(vertical, align, blocks)`. -/
def PanelBlock.new (vertical : Bool) (align : Nat) (blocks : List Block) : Block :=
  .panel ⟨0, 0⟩ vertical align blocks (List.replicate blocks.length ⟨0, 0⟩)

/-- Source: `DebugBlock(font, inner)`. -/
def DebugBlock.new (font : Option Font) (inner : Block) : Block :=
  .debug ⟨0, 0⟩ font inner

/-- Source: `Block::can_expand` and its overrides in `ExpandBlock`, `DebugBlock`. -/
def Block.can_expand : Block → Bool
  | .expand _ _ => true
  | .debug _ _ inner => inner.can_expand
  | _ => false

/-- The cached `_measured` of a node. -/
def Block.measured : Block → Dimensions
  | .text b => b.measured
  | .textRow m _ _ _ => m
  | .padding m _ _ => m
  | .horizontalLine m _ _ _ => m
  | .expand m _ => m
  | .panel m _ _ _ _ => m
  | .debug m _ _ => m

/-! ## Axis selection (`PanelBlock::main_axis`, `PanelBlock::cross_axis`)

The source returns a reference; reads and writes through it are separate
functions here. -/

def main_axis (vertical : Bool) (x y : Int) : Int := if vertical then y else x

def cross_axis (vertical : Bool) (x y : Int) : Int := if vertical then x else y

/-- Assignment `main_axis(x, y) = v`: the pair `(x, y)` afterwards. -/
def set_main_axis (vertical : Bool) (x y v : Int) : Int × Int :=
  if vertical then (x, v) else (v, y)

/-- Assignment `cross_axis(x, y) = v`: the pair `(x, y)` afterwards. -/
def set_cross_axis (vertical : Bool) (x y v : Int) : Int × Int :=
  if vertical then (v, y) else (x, v)

/-! ## Measure pass -/

/-- Source: `TextBlock::do_measure`. -/
def TextBlock.do_measure (b : TextBlock) : Dimensions :=
  let m := b.desc.font.measure b.desc.text
  ⟨m.width, m.height⟩

/-- Accumulators of the loop of `TextRowBlock::do_measure`. -/
structure TextRowAcc where
  blockDimensions : List Dimensions
  width : Int
  max_height_above : Int
  max_height_below : Int
  max_baseline : Int

/-- The loop of `TextRowBlock::do_measure`, from index `i` on. -/
def TextRowBlock.measureLoop : List TextBlock → Nat → TextRowAcc → TextRowAcc
  | [], _, acc => acc
  | b :: rest, i, acc =>
      let m := b.desc.font.measure b.desc.text
      TextRowBlock.measureLoop rest (i + 1)
        ⟨acc.blockDimensions.set i ⟨m.width, m.height⟩,
         acc.width + m.width,
         max acc.max_height_above m.baseline,
         max acc.max_height_below (m.height - m.baseline),
         max acc.max_baseline m.baseline⟩

/-- Accumulators of the loop of `PanelBlock::do_measure`, with the children as
they are after their own `measure`. -/
structure PanelAcc where
  blocks : List Block
  blockDimensions : List Dimensions
  width : Int
  height : Int

mutual
/-- Source: `Block::measure` (`_measured = do_measure()`), with `do_measure` of
every subclass. -/
def Block.measure : Block → Dimensions × Block
  | .text b =>
      let d := TextBlock.do_measure b
      (d, .text ⟨d, b.desc⟩)
  | .textRow _ blocks ds _ =>
      let acc := TextRowBlock.measureLoop blocks 0 ⟨ds, 0, 0, 0, 0⟩
      let d : Dimensions := ⟨acc.width, acc.max_height_above + acc.max_height_below⟩
      (d, .textRow d blocks acc.blockDimensions acc.max_baseline)
  | .padding _ w h => (⟨w, h⟩, .padding ⟨w, h⟩ w h)
  | .horizontalLine _ t hp vp =>
      let d : Dimensions := ⟨hp * 2, t + vp * 2⟩
      (d, .horizontalLine d t hp vp)
  | .expand _ inner =>
      let r := inner.measure
      (r.1, .expand r.1 r.2)
  | .panel _ vertical align blocks ds =>
      let acc := PanelBlock.measureLoop vertical blocks 0 ds 0 0
      let d : Dimensions := ⟨acc.width, acc.height⟩
      (d, .panel d vertical align acc.blocks acc.blockDimensions)
  | .debug _ font inner =>
      let r := inner.measure
      (r.1, .debug r.1 font r.2)
/-- The loop of `PanelBlock::do_measure`, from index `i` on, with the running
`width` and `height`. -/
def PanelBlock.measureLoop (vertical : Bool) :
    List Block → Nat → List Dimensions → Int → Int → PanelAcc
  | [], _, ds, width, height => ⟨[], ds, width, height⟩
  | b :: rest, i, ds, width, height =>
      let r := b.measure
      let dm := r.1
      let acc := PanelBlock.measureLoop vertical rest (i + 1) (ds.set i dm)
        (if vertical then max width dm.width else width + dm.width)
        (if vertical then height + dm.height else max height dm.height)
      ⟨r.2 :: acc.blocks, acc.blockDimensions, acc.width, acc.height⟩
end

/-! ## Render pass -/

/-- Source: `TextBlock::do_render`. -/
def TextBlock.do_render (b : TextBlock) (rect : Rect) : List DrawCmd :=
  let x := rect.x + Int.tdiv (rect.width - b.measured.width) 2
  let y := rect.y + Int.tdiv (rect.height - b.measured.height) 2
  [.print x y b.desc.font b.desc.text]

/-- The loop of `TextRowBlock::do_render`, from index `i` on, with cursor `x`. -/
def TextRowBlock.renderLoop (ds : List Dimensions) (y : Int) :
    List TextBlock → Nat → Int → List DrawCmd
  | [], _, _ => []
  | b :: rest, i, x =>
      .print_aligned x y b.desc.font .BASELINE_LEFT b.desc.text ::
        TextRowBlock.renderLoop ds y rest (i + 1) (x + (ds.getD i ⟨0, 0⟩).width)

/-- Source: `TextRowBlock::do_render`. -/
def TextRowBlock.do_render (measured : Dimensions) (blocks : List TextBlock)
    (ds : List Dimensions) (measureMaxBaseline : Int) (rect : Rect) : List DrawCmd :=
  let x := rect.x + Int.tdiv (rect.width - measured.width) 2
  let y := rect.y + Int.tdiv (rect.height - measured.height) 2
  let y := y + measureMaxBaseline
  TextRowBlock.renderLoop ds y blocks 0 x

/-- Source: `HorizontalLineBlock::do_render`. -/
def HorizontalLineBlock.do_render (thickness h_padding v_padding : Int) (rect : Rect) :
    List DrawCmd :=
  let line_len := rect.width - h_padding * 2
  [.filled_rectangle (rect.x + h_padding) (rect.y + v_padding) line_len thickness]

/-- The drawing `DebugBlock::do_render` does after its child has rendered. -/
def DebugBlock.overlay (font : Option Font) (rect : Rect) : List DrawCmd :=
  .rectangle rect.x rect.y rect.width rect.height ::
    (match font with
     | none => []
     | some f =>
        [.filled_rectangle_color (rect.x + 2) (rect.y + 2) 50 30 .COLOR_OFF,
         .printf (rect.x + 2) (rect.y + 2) f "%d:%d" [rect.x, rect.y],
         .printf (rect.x + 2) (rect.y + 20) f "%dx%d" [rect.width, rect.height]])

/-- The three locals `PanelBlock::do_render` settles before its loops. -/
structure FlowParams where
  startOffset : Int
  flowPadding : Int
  spacePerExpandableBlock : Int
deriving DecidableEq, Repr

/-- Source: `PanelBlock::do_render`, from its first line to the end of the
"align strategy" block.  `expandableCount` is a signed count, so the first
division is a signed one.  The divisions of the `SPACE_BETWEEN` branch are
reached with `freeFlowSpace > 0` only, where the unsigned arithmetic that
`_blocks.size()` brings in agrees with the signed one. -/
def PanelBlock.flowParams (measured : Dimensions) (vertical : Bool) (align : Nat)
    (blocks : List Block) (rect : Rect) : FlowParams :=
  let freeFlowSpace :=
    main_axis vertical rect.width rect.height - main_axis vertical measured.width measured.height
  let expandableCount : Nat := blocks.countP Block.can_expand
  let spacePerExpandableBlock : Int :=
    if expandableCount > 0 then Int.tdiv freeFlowSpace (expandableCount : Int) else 0
  let freeFlowSpace : Int := if expandableCount > 0 then 0 else freeFlowSpace
  if freeFlowSpace > 0 then
    if align &&& START = START then
      ⟨0, 0, spacePerExpandableBlock⟩
    else if align &&& CENTER = CENTER then
      ⟨Int.tdiv freeFlowSpace 2, 0, spacePerExpandableBlock⟩
    else if align &&& END = END then
      ⟨freeFlowSpace, 0, spacePerExpandableBlock⟩
    else
      ⟨0,
       if blocks.length > 1 then Int.tdiv freeFlowSpace ((blocks.length - 1 : Nat) : Int)
       else Int.tdiv freeFlowSpace 2,
       spacePerExpandableBlock⟩
  else
    ⟨0, 0, spacePerExpandableBlock⟩

/-- STEP 2 of `PanelBlock::do_render`, from index `i` on: the stored
`_blockDimensions[i]` grows in place. -/
def PanelBlock.patchLoop (vertical : Bool) (spacePerExpandableBlock : Int) :
    List Block → Nat → List Dimensions → List Dimensions
  | [], _, ds => ds
  | b :: rest, i, ds =>
      let d := ds.getD i ⟨0, 0⟩
      let grow : Int := if b.can_expand then spacePerExpandableBlock else 0
      let d2 : Dimensions :=
        if vertical then ⟨d.width, d.height + grow⟩ else ⟨d.width + grow, d.height⟩
      PanelBlock.patchLoop vertical spacePerExpandableBlock rest (i + 1) (ds.set i d2)

/-- Body of the STEP 3 loop of `PanelBlock::do_render` up to `auto bRect = ...`:
the rectangle of the child whose stored dimensions are `bDim`, with the cursor
at `(renderX, renderY)`. -/
def PanelBlock.childRect (vertical : Bool) (align : Nat) (rect : Rect) (bDim : Dimensions)
    (renderX renderY : Int) : Rect :=
  let x := renderX
  let y := renderY
  let w := bDim.width
  let h := bDim.height
  if align &&& STRETCH = STRETCH then
    let wh := set_cross_axis vertical w h (cross_axis vertical rect.width rect.height)
    ⟨x, y, wh.1, wh.2⟩
  else if align &&& RIGHT = RIGHT then
    let xy := set_cross_axis vertical x y
      (cross_axis vertical x y +
        (cross_axis vertical rect.width rect.height - cross_axis vertical w h))
    ⟨xy.1, xy.2, w, h⟩
  else if align &&& MIDDLE = MIDDLE then
    let xy := set_cross_axis vertical x y
      (cross_axis vertical x y +
        Int.tdiv (cross_axis vertical rect.width rect.height - cross_axis vertical w h) 2)
    ⟨xy.1, xy.2, w, h⟩
  else
    ⟨x, y, w, h⟩

/-- One child of a panel in STEP 3: the rectangle handed to it, the child after
its `render`, and what it drew. -/
structure ChildRender where
  rect : Rect
  block : Block
  draws : List DrawCmd

/-- What `PanelBlock::do_render` has before STEP 3: the patched
`_blockDimensions`, the cursor `(renderX, renderY)` with the initial offset
added, and `flowPadding`. -/
structure PanelStart where
  blockDimensions : List Dimensions
  renderX : Int
  renderY : Int
  flowPadding : Int

/-- Source: `PanelBlock::do_render` up to the STEP 3 loop. -/
def PanelBlock.start (measured : Dimensions) (vertical : Bool) (align : Nat)
    (blocks : List Block) (ds : List Dimensions) (rect : Rect) : PanelStart :=
  let p := PanelBlock.flowParams measured vertical align blocks rect
  let ds2 := PanelBlock.patchLoop vertical p.spacePerExpandableBlock blocks 0 ds
  let cur := set_main_axis vertical rect.x rect.y
    (main_axis vertical rect.x rect.y + p.startOffset)
  ⟨ds2, cur.1, cur.2, p.flowPadding⟩

mutual
/-- Source: `Block::render`, with `do_render` of every subclass: the node
afterwards and the commands drawn. -/
def Block.render : Block → Rect → Block × List DrawCmd
  | .text b, rect => (.text b, TextBlock.do_render b rect)
  | .textRow m blocks ds mb, rect =>
      (.textRow m blocks ds mb, TextRowBlock.do_render m blocks ds mb rect)
  | .padding m w h, _ => (.padding m w h, [])
  | .horizontalLine m t hp vp, rect =>
      (.horizontalLine m t hp vp, HorizontalLineBlock.do_render t hp vp rect)
  | .expand m inner, rect =>
      let r := inner.render rect
      (.expand m r.1, r.2)
  | .panel m vertical align blocks ds, rect =>
      let s := PanelBlock.start m vertical align blocks ds rect
      let rs := PanelBlock.renderLoop vertical align rect s.flowPadding s.blockDimensions
        blocks 0 s.renderX s.renderY
      (.panel m vertical align (rs.map ChildRender.block) s.blockDimensions,
       (rs.map ChildRender.draws).flatten)
  | .debug m font inner, rect =>
      let r := inner.render rect
      (.debug m font r.1, r.2 ++ DebugBlock.overlay font rect)
/-- The STEP 3 loop of `PanelBlock::do_render`, from index `i` on, with the
cursor at `(renderX, renderY)`. -/
def PanelBlock.renderLoop (vertical : Bool) (align : Nat) (rect : Rect) (flowPadding : Int)
    (ds : List Dimensions) : List Block → Nat → Int → Int → List ChildRender
  | [], _, _, _ => []
  | b :: rest, i, renderX, renderY =>
      let bRect := PanelBlock.childRect vertical align rect (ds.getD i ⟨0, 0⟩) renderX renderY
      let r := b.render bRect
      let cur := set_main_axis vertical renderX renderY
        (main_axis vertical renderX renderY +
          (main_axis vertical bRect.width bRect.height + flowPadding))
      ⟨bRect, r.1, r.2⟩ :: PanelBlock.renderLoop vertical align rect flowPadding ds rest (i + 1)
        cur.1 cur.2
end

/-- The rectangles a panel hands to its children, in order, when it is rendered
into `rect` (no rectangle for a node that is not a panel). -/
def Block.childRects : Block → Rect → List Rect
  | .panel m vertical align blocks ds, rect =>
      let s := PanelBlock.start m vertical align blocks ds rect
      (PanelBlock.renderLoop vertical align rect s.flowPadding s.blockDimensions
        blocks 0 s.renderX s.renderY).map ChildRender.rect
  | _, _ => []

/-! ## Projections used in the statements -/

/-- Main-axis size of a measured size. -/
def Dimensions.main (vertical : Bool) (d : Dimensions) : Int :=
  main_axis vertical d.width d.height

/-- Cross-axis size of a measured size. -/
def Dimensions.cross (vertical : Bool) (d : Dimensions) : Int :=
  cross_axis vertical d.width d.height

/-- Main-axis origin of a rectangle. -/
def Rect.mainOrigin (vertical : Bool) (r : Rect) : Int := main_axis vertical r.x r.y

/-- Cross-axis origin of a rectangle. -/
def Rect.crossOrigin (vertical : Bool) (r : Rect) : Int := cross_axis vertical r.x r.y

/-- Main-axis size of a rectangle. -/
def Rect.mainSize (vertical : Bool) (r : Rect) : Int := main_axis vertical r.width r.height

/-- Cross-axis size of a rectangle. -/
def Rect.crossSize (vertical : Bool) (r : Rect) : Int := cross_axis vertical r.width r.height

/-- What `measure` returns on a node. -/
def Block.measuredSize (b : Block) : Dimensions := b.measure.1

/-- The stored dimensions of one child after STEP 2. -/
def patched (vertical : Bool) (share : Int) (b : Block) (d : Dimensions) : Dimensions :=
  if vertical then ⟨d.width, d.height + (if b.can_expand then share else 0)⟩
  else ⟨d.width + (if b.can_expand then share else 0), d.height⟩

/-- The rectangles of STEP 3 for children with stored dimensions `ds`, the
cursor starting at `(x, y)`. -/
def rectsFrom (vertical : Bool) (align : Nat) (rect : Rect) (flowPadding : Int) :
    List Dimensions → Int → Int → List Rect
  | [], _, _ => []
  | d :: ds, x, y =>
      PanelBlock.childRect vertical align rect d x y ::
        rectsFrom vertical align rect flowPadding ds
          (set_main_axis vertical x y (main_axis vertical x y + (d.main vertical + flowPadding))).1
          (set_main_axis vertical x y (main_axis vertical x y + (d.main vertical + flowPadding))).2

/-- Main-axis origin and main-axis size of a rectangle. -/
def Rect.mainSpan (vertical : Bool) (r : Rect) : Int × Int :=
  (r.mainOrigin vertical, r.mainSize vertical)

/-- Spans laid from cursor `c` on for main-axis sizes `ms`, `pad` after each. -/
def spansFrom (pad : Int) : List Int → Int → List (Int × Int)
  | [], _ => []
  | m :: ms, c => (c, m) :: spansFrom pad ms (c + (m + pad))

/-- The leftover of a panel: allocated main-axis size minus measured main-axis size. -/
def leftover (vertical : Bool) (measured : Dimensions) (rect : Rect) : Int :=
  rect.mainSize vertical - measured.main vertical

/-- The panel over children `bs`, as `measure` leaves it. -/
def measuredPanel (m : Dimensions) (vertical : Bool) (align : Nat) (bs : List Block)
    (ds : List Dimensions) : Block :=
  (Block.measure (.panel m vertical align bs ds)).2

/-- What `measure` returns on the panel over children `bs`. -/
def panelSize (m : Dimensions) (vertical : Bool) (align : Nat) (bs : List Block)
    (ds : List Dimensions) : Dimensions :=
  (Block.measure (.panel m vertical align bs ds)).1

/-! ## Faults: the divisions of the render of a panel

`Int.tdiv` is total, the machine division is not.  The two functions below
repeat `PanelBlock.flowParams` and `PanelBlock.childRect` with every `/` of the
source replaced by a division that fails on a zero divisor. -/

/-- Machine division `a / b` on `int`: no result when `b` is zero. -/
def checkedDiv (a b : Int) : Option Int :=
  if b = 0 then none else some (Int.tdiv a b)

/-- Source: `PanelBlock::do_render`, from its first line to the end of the
"align strategy" block, with the divisions checked. -/
def PanelBlock.flowParamsChecked (measured : Dimensions) (vertical : Bool) (align : Nat)
    (blocks : List Block) (rect : Rect) : Option FlowParams :=
  let freeFlowSpace :=
    main_axis vertical rect.width rect.height - main_axis vertical measured.width measured.height
  let expandableCount : Nat := blocks.countP Block.can_expand
  (if expandableCount > 0 then checkedDiv freeFlowSpace (expandableCount : Int)
    else some 0).bind fun spacePerExpandableBlock =>
  let freeFlowSpace : Int := if expandableCount > 0 then 0 else freeFlowSpace
  if freeFlowSpace > 0 then
    if align &&& START = START then
      some ⟨0, 0, spacePerExpandableBlock⟩
    else if align &&& CENTER = CENTER then
      (checkedDiv freeFlowSpace 2).bind fun startOffset =>
        some ⟨startOffset, 0, spacePerExpandableBlock⟩
    else if align &&& END = END then
      some ⟨freeFlowSpace, 0, spacePerExpandableBlock⟩
    else
      (if blocks.length > 1 then checkedDiv freeFlowSpace ((blocks.length - 1 : Nat) : Int)
        else checkedDiv freeFlowSpace 2).bind fun flowPadding =>
        some ⟨0, flowPadding, spacePerExpandableBlock⟩
  else
    some ⟨0, 0, spacePerExpandableBlock⟩

/-- Body of the STEP 3 loop of `PanelBlock::do_render` up to `auto bRect = ...`,
with the division checked. -/
def PanelBlock.childRectChecked (vertical : Bool) (align : Nat) (rect : Rect)
    (bDim : Dimensions) (renderX renderY : Int) : Option Rect :=
  let x := renderX
  let y := renderY
  let w := bDim.width
  let h := bDim.height
  if align &&& STRETCH = STRETCH then
    let wh := set_cross_axis vertical w h (cross_axis vertical rect.width rect.height)
    some ⟨x, y, wh.1, wh.2⟩
  else if align &&& RIGHT = RIGHT then
    let xy := set_cross_axis vertical x y
      (cross_axis vertical x y +
        (cross_axis vertical rect.width rect.height - cross_axis vertical w h))
    some ⟨xy.1, xy.2, w, h⟩
  else if align &&& MIDDLE = MIDDLE then
    (checkedDiv (cross_axis vertical rect.width rect.height - cross_axis vertical w h) 2).bind
      fun half =>
        let xy := set_cross_axis vertical x y (cross_axis vertical x y + half)
        some ⟨xy.1, xy.2, w, h⟩
  else
    some ⟨x, y, w, h⟩

/-! ## More projections used in the statements -/

/-- The stored `_blockDimensions` of a panel or text row. -/
def Block.blockDimensions : Block → List Dimensions
  | .panel _ _ _ _ ds => ds
  | .textRow _ _ ds _ => ds
  | _ => []

/-- The stored `_measureMaxBaseline` of a text row. -/
def Block.measureMaxBaseline : Block → Int
  | .textRow _ _ _ mb => mb
  | _ => 0

/-- Writes `vs` into `ds` at the indices from `i` on, as the measure loops do. -/
def setFrom : Nat → List Dimensions → List Dimensions → List Dimensions
  | _, [], ds => ds
  | i, v :: vs, ds => setFrom (i + 1) vs (ds.set i v)

/-- The size `TextRowBlock::do_measure` stores for one child. -/
def TextBlock.rowDimensions (b : TextBlock) : Dimensions :=
  ⟨(b.desc.font.measure b.desc.text).width, (b.desc.font.measure b.desc.text).height⟩

/-- Baseline offset (ascent) the font reports for a text. -/
def TextBlock.ascent (b : TextBlock) : Int := (b.desc.font.measure b.desc.text).baseline

/-- Height below the baseline (descent) the font reports for a text. -/
def TextBlock.descent (b : TextBlock) : Int :=
  (b.desc.font.measure b.desc.text).height - (b.desc.font.measure b.desc.text).baseline

/-- Advance width the font reports for a text. -/
def TextBlock.advance (b : TextBlock) : Int := (b.desc.font.measure b.desc.text).width
/-! ## The measure loop of a panel -/

theorem measureLoop_blocks (vertical : Bool) (bs : List Block) :
    ∀ (i : Nat) (ds : List Dimensions) (w h : Int),
      (PanelBlock.measureLoop vertical bs i ds w h).blocks = bs.map (fun b => b.measure.2) := by
  induction bs with
  | nil => intro i ds w h; simp [PanelBlock.measureLoop]
  | cons b rest ih => intro i ds w h; simp [PanelBlock.measureLoop, ih]

theorem measureLoop_dims (vertical : Bool) (bs : List Block) :
    ∀ (i : Nat) (pre mid post : List Dimensions) (w h : Int),
      pre.length = i → mid.length = bs.length →
      (PanelBlock.measureLoop vertical bs i (pre ++ mid ++ post) w h).blockDimensions
        = pre ++ bs.map Block.measuredSize ++ post := by
  induction bs with
  | nil =>
      intro i pre mid post w h _ hm
      have : mid = [] := List.length_eq_zero.mp (by simpa using hm)
      simp [PanelBlock.measureLoop, this]
  | cons b rest ih =>
      intro i pre mid post w h hp hm
      cases mid with
      | nil => simp at hm
      | cons d mid2 =>
          have hset : (pre ++ d :: mid2 ++ post).set i b.measure.1
              = (pre ++ [b.measure.1]) ++ mid2 ++ post := by
            subst hp
            simp [List.set_append]
          simp only [PanelBlock.measureLoop, hset]
          rw [ih (i + 1) (pre ++ [b.measure.1]) mid2 post _ _ (by simp [hp]) (by simpa using hm)]
          simp [Block.measuredSize]

theorem measureLoop_main (vertical : Bool) (bs : List Block) :
    ∀ (i : Nat) (ds : List Dimensions) (w h : Int),
      main_axis vertical (PanelBlock.measureLoop vertical bs i ds w h).width
          (PanelBlock.measureLoop vertical bs i ds w h).height
        = main_axis vertical w h + (bs.map (fun b => b.measuredSize.main vertical)).sum := by
  induction bs with
  | nil => intro i ds w h; simp [PanelBlock.measureLoop]
  | cons b rest ih =>
      intro i ds w h
      simp only [PanelBlock.measureLoop, List.map_cons, List.sum_cons]
      rw [ih]
      cases vertical <;> simp [main_axis, Dimensions.main, Block.measuredSize] <;> ring

theorem measureLoop_cross (vertical : Bool) (bs : List Block) :
    ∀ (i : Nat) (ds : List Dimensions) (w h : Int),
      cross_axis vertical (PanelBlock.measureLoop vertical bs i ds w h).width
          (PanelBlock.measureLoop vertical bs i ds w h).height
        = (bs.map (fun b => b.measuredSize.cross vertical)).foldl max (cross_axis vertical w h) := by
  induction bs with
  | nil => intro i ds w h; simp [PanelBlock.measureLoop]
  | cons b rest ih =>
      intro i ds w h
      simp only [PanelBlock.measureLoop, List.map_cons, List.foldl_cons]
      rw [ih]
      cases vertical <;> simp [cross_axis, Dimensions.cross, Block.measuredSize]

theorem can_expand_measure : ∀ b : Block, b.measure.2.can_expand = b.can_expand
  | .text _ => rfl
  | .textRow _ _ _ _ => rfl
  | .padding _ _ _ => rfl
  | .horizontalLine _ _ _ _ => rfl
  | .expand _ _ => rfl
  | .panel _ _ _ _ _ => rfl
  | .debug _ _ inner => by
      simp only [Block.measure, Block.can_expand]
      exact can_expand_measure inner

theorem foldl_max_isGreatest (cs : List Int) :
    ∀ c0 : Int, IsGreatest {c | c = c0 ∨ c ∈ cs} (cs.foldl max c0) := by
  induction cs with
  | nil => intro c0; simp [IsGreatest, upperBounds]
  | cons c rest ih =>
      intro c0
      obtain ⟨hmem, hub⟩ := ih (max c0 c)
      refine ⟨?_, ?_⟩
      · rcases hmem with h | h
        · simp only [List.foldl_cons, Set.mem_setOf_eq, h]
          rcases le_total c0 c with hc | hc
          · right; simp [max_eq_right hc]
          · left; simp [max_eq_left hc]
        · right; exact List.mem_cons_of_mem _ h
      · intro x hx
        rcases hx with h | h
        · exact le_trans (by rw [h]; exact le_max_left _ _) (hub (Or.inl rfl))
        · rcases List.mem_cons.mp h with h2 | h2
          · exact le_trans (by rw [h2]; exact le_max_right _ _) (hub (Or.inl rfl))
          · exact hub (Or.inr h2)

/-! ## STEP 2 and STEP 3 of the render of a panel -/

theorem patched_main (vertical : Bool) (share : Int) (b : Block) (d : Dimensions) :
    (patched vertical share b d).main vertical
      = d.main vertical + (if b.can_expand then share else 0) := by
  cases vertical <;> simp [patched, Dimensions.main, main_axis]

theorem getD_append_mid (pre post : List Dimensions) (d d0 : Dimensions) :
    (pre ++ d :: post).getD pre.length d0 = d := by
  induction pre with
  | nil => rfl
  | cons p pre ih => simpa using ih

theorem set_append_mid (pre post : List Dimensions) (d e : Dimensions) :
    (pre ++ d :: post).set pre.length e = (pre ++ [e]) ++ post := by
  simp [List.set_append]

theorem patchLoop_eq (vertical : Bool) (share : Int) (bs : List Block) :
    ∀ (i : Nat) (pre mid post : List Dimensions),
      pre.length = i → mid.length = bs.length →
      PanelBlock.patchLoop vertical share bs i (pre ++ mid ++ post)
        = pre ++ List.zipWith (patched vertical share) bs mid ++ post := by
  induction bs with
  | nil =>
      intro i pre mid post _ hm
      have : mid = [] := List.length_eq_zero.mp (by simpa using hm)
      simp [PanelBlock.patchLoop, this]
  | cons b rest ih =>
      intro i pre mid post hp hm
      cases mid with
      | nil => simp at hm
      | cons d mid2 =>
          subst hp
          simp only [PanelBlock.patchLoop, List.append_assoc, List.cons_append,
            getD_append_mid, set_append_mid]
          have := ih (pre.length + 1) (pre ++ [patched vertical share b d]) mid2 post
            (by simp) (by simpa using hm)
          simp only [List.append_assoc, List.singleton_append, List.cons_append,
            List.nil_append] at this ⊢
          rw [List.zipWith_cons_cons]
          exact this

theorem childRect_mainSize (vertical : Bool) (align : Nat) (rect : Rect) (d : Dimensions)
    (x y : Int) :
    (PanelBlock.childRect vertical align rect d x y).mainSize vertical = d.main vertical := by
  unfold PanelBlock.childRect
  cases vertical <;> simp only [Rect.mainSize, Dimensions.main, main_axis, set_cross_axis] <;>
    split_ifs <;> simp

theorem childRect_mainOrigin (vertical : Bool) (align : Nat) (rect : Rect) (d : Dimensions)
    (x y : Int) :
    (PanelBlock.childRect vertical align rect d x y).mainOrigin vertical
      = main_axis vertical x y := by
  unfold PanelBlock.childRect
  cases vertical <;> simp only [Rect.mainOrigin, main_axis, set_cross_axis] <;>
    split_ifs <;> simp

theorem childRect_stretch (vertical : Bool) (align : Nat) (rect : Rect) (d : Dimensions)
    (x y : Int) (hs : align &&& STRETCH = STRETCH) :
    (PanelBlock.childRect vertical align rect d x y).crossSize vertical = rect.crossSize vertical
      ∧ (PanelBlock.childRect vertical align rect d x y).crossOrigin vertical
          = cross_axis vertical x y := by
  unfold PanelBlock.childRect
  cases vertical <;>
    simp [hs, Rect.crossSize, Rect.crossOrigin, cross_axis, set_cross_axis]

theorem renderLoop_rects (vertical : Bool) (align : Nat) (rect : Rect) (flowPadding : Int)
    (post : List Dimensions) (bs : List Block) :
    ∀ (i : Nat) (pre mid : List Dimensions) (x y : Int),
      pre.length = i → mid.length = bs.length →
      (PanelBlock.renderLoop vertical align rect flowPadding (pre ++ mid ++ post) bs i x y).map
          ChildRender.rect
        = rectsFrom vertical align rect flowPadding mid x y := by
  induction bs with
  | nil =>
      intro i pre mid x y _ hm
      have : mid = [] := List.length_eq_zero.mp (by simpa using hm)
      simp [PanelBlock.renderLoop, this, rectsFrom]
  | cons b rest ih =>
      intro i pre mid x y hp hm
      cases mid with
      | nil => simp at hm
      | cons d mid2 =>
          subst hp
          have := ih (pre.length + 1) (pre ++ [d]) mid2
          simp only [List.append_assoc, List.singleton_append, List.cons_append,
            List.nil_append] at this ⊢
          simp only [PanelBlock.renderLoop, getD_append_mid, List.map_cons, rectsFrom]
          rw [this _ _ (by simp) (by simpa using hm)]
          have hm := childRect_mainSize vertical align rect d x y
          simp only [Rect.mainSize] at hm
          rw [hm]

/-! ## Main-axis spans -/

theorem main_axis_set_main_axis (vertical : Bool) (x y c : Int) :
    main_axis vertical (set_main_axis vertical x y c).1 (set_main_axis vertical x y c).2 = c := by
  cases vertical <;> simp [main_axis, set_main_axis]

theorem cross_axis_set_main_axis (vertical : Bool) (x y c : Int) :
    cross_axis vertical (set_main_axis vertical x y c).1 (set_main_axis vertical x y c).2
      = cross_axis vertical x y := by
  cases vertical <;> simp [cross_axis, set_main_axis]

theorem rectsFrom_spans (vertical : Bool) (align : Nat) (rect : Rect) (pad : Int)
    (ds : List Dimensions) :
    ∀ x y : Int,
      (rectsFrom vertical align rect pad ds x y).map (Rect.mainSpan vertical)
        = spansFrom pad (ds.map (Dimensions.main vertical)) (main_axis vertical x y) := by
  induction ds with
  | nil => intro x y; rfl
  | cons d ds ih =>
      intro x y
      simp only [rectsFrom, List.map_cons, spansFrom, ih, main_axis_set_main_axis]
      simp [Rect.mainSpan, childRect_mainOrigin, childRect_mainSize]

theorem rectsFrom_stretch (vertical : Bool) (align : Nat) (rect : Rect) (pad : Int)
    (hs : align &&& STRETCH = STRETCH) (ds : List Dimensions) :
    ∀ (x y : Int) (r : Rect), r ∈ rectsFrom vertical align rect pad ds x y →
      r.crossSize vertical = rect.crossSize vertical
        ∧ r.crossOrigin vertical = cross_axis vertical x y := by
  induction ds with
  | nil => intro x y r hr; simp [rectsFrom] at hr
  | cons d ds ih =>
      intro x y r hr
      simp only [rectsFrom, List.mem_cons] at hr
      rcases hr with h | h
      · rw [h]; exact childRect_stretch vertical align rect d x y hs
      · have := ih _ _ r h
        rwa [cross_axis_set_main_axis] at this

theorem spansFrom_getElem? (pad : Int) (ms : List Int) :
    ∀ (i : Nat) (c m : Int), ms[i]? = some m →
      (spansFrom pad ms c)[i]? = some (c + (ms.take i).sum + i * pad, m) := by
  induction ms with
  | nil => intro i c m h; simp at h
  | cons m0 ms ih =>
      intro i c m h
      cases i with
      | zero =>
          simp only [List.getElem?_cons_zero, Option.some.injEq] at h
          simp [spansFrom, h]
      | succ j =>
          simp only [List.getElem?_cons_succ] at h
          simp only [spansFrom, List.getElem?_cons_succ, ih j _ m h, List.take_succ_cons,
            List.sum_cons, Option.some.injEq, Prod.mk.injEq, and_true]
          push_cast
          ring

theorem spansFrom_sizes (pad : Int) (ms : List Int) :
    ∀ c : Int, (spansFrom pad ms c).map Prod.snd = ms := by
  induction ms with
  | nil => intro c; rfl
  | cons m ms ih => intro c; simp [spansFrom, ih]

/-! ## The panel after `measure` -/

theorem countP_can_expand_measure (bs : List Block) :
    (bs.map (fun b => b.measure.2)).countP Block.can_expand = bs.countP Block.can_expand := by
  induction bs with
  | nil => rfl
  | cons b bs ih => simp [List.countP_cons, can_expand_measure, ih]

theorem flowParams_measure (d : Dimensions) (vertical : Bool) (align : Nat) (bs : List Block)
    (rect : Rect) :
    PanelBlock.flowParams d vertical align (bs.map (fun b => b.measure.2)) rect
      = PanelBlock.flowParams d vertical align bs rect := by
  simp only [PanelBlock.flowParams, countP_can_expand_measure, List.length_map]

theorem zipWith_patched_measure (vertical : Bool) (share : Int) (bs : List Block) :
    List.zipWith (patched vertical share) (bs.map (fun b => b.measure.2))
        (bs.map Block.measuredSize)
      = bs.map (fun b => patched vertical share b b.measuredSize) := by
  induction bs with
  | nil => rfl
  | cons b bs ih =>
      simp only [List.map_cons, List.zipWith_cons_cons, ih]
      simp [patched, can_expand_measure]

theorem measure_panel_snd (m : Dimensions) (vertical : Bool) (align : Nat) (bs : List Block)
    (ds : List Dimensions) (hlen : ds.length = bs.length) :
    (Block.measure (.panel m vertical align bs ds)).2
      = .panel (Block.measure (.panel m vertical align bs ds)).1 vertical align
          (bs.map (fun b => b.measure.2)) (bs.map Block.measuredSize) := by
  have h := measureLoop_dims vertical bs 0 [] ds [] 0 0 rfl hlen
  simp only [List.nil_append, List.append_nil] at h
  simp only [Block.measure, measureLoop_blocks, h]

/-- Rectangles handed to the children by the render that follows a measure. -/
theorem childRects_measured (m : Dimensions) (vertical : Bool) (align : Nat) (bs : List Block)
    (ds : List Dimensions) (rect : Rect) (hlen : ds.length = bs.length) :
    (Block.measure (.panel m vertical align bs ds)).2.childRects rect
      = rectsFrom vertical align rect
          (PanelBlock.flowParams (Block.measure (.panel m vertical align bs ds)).1
            vertical align bs rect).flowPadding
          (bs.map (fun b => patched vertical
            (PanelBlock.flowParams (Block.measure (.panel m vertical align bs ds)).1
              vertical align bs rect).spacePerExpandableBlock b b.measuredSize))
          (set_main_axis vertical rect.x rect.y (main_axis vertical rect.x rect.y +
            (PanelBlock.flowParams (Block.measure (.panel m vertical align bs ds)).1
              vertical align bs rect).startOffset)).1
          (set_main_axis vertical rect.x rect.y (main_axis vertical rect.x rect.y +
            (PanelBlock.flowParams (Block.measure (.panel m vertical align bs ds)).1
              vertical align bs rect).startOffset)).2 := by
  rw [measure_panel_snd m vertical align bs ds hlen]
  simp only [Block.childRects, PanelBlock.start, flowParams_measure]
  have hp := patchLoop_eq vertical
    (PanelBlock.flowParams (Block.measure (.panel m vertical align bs ds)).1
      vertical align bs rect).spacePerExpandableBlock
    (bs.map (fun b => b.measure.2)) 0 [] (bs.map Block.measuredSize) [] rfl (by simp)
  simp only [List.nil_append, List.append_nil] at hp
  rw [hp, zipWith_patched_measure]
  have hr := renderLoop_rects vertical align rect
    (PanelBlock.flowParams (Block.measure (.panel m vertical align bs ds)).1
      vertical align bs rect).flowPadding [] (bs.map (fun b => b.measure.2)) 0 []
    (bs.map (fun b => patched vertical
      (PanelBlock.flowParams (Block.measure (.panel m vertical align bs ds)).1
        vertical align bs rect).spacePerExpandableBlock b b.measuredSize))
  simp only [List.nil_append, List.append_nil] at hr
  exact hr _ _ rfl (by simp)

/-- Main-axis spans handed to the children by the render that follows a measure. -/
theorem mainSpans_measured (m : Dimensions) (vertical : Bool) (align : Nat) (bs : List Block)
    (ds : List Dimensions) (rect : Rect) (hlen : ds.length = bs.length) :
    ((Block.measure (.panel m vertical align bs ds)).2.childRects rect).map
        (Rect.mainSpan vertical)
      = spansFrom
          (PanelBlock.flowParams (Block.measure (.panel m vertical align bs ds)).1
            vertical align bs rect).flowPadding
          (bs.map (fun b => b.measuredSize.main vertical +
            (if b.can_expand then
              (PanelBlock.flowParams (Block.measure (.panel m vertical align bs ds)).1
                vertical align bs rect).spacePerExpandableBlock else 0)))
          (rect.mainOrigin vertical +
            (PanelBlock.flowParams (Block.measure (.panel m vertical align bs ds)).1
              vertical align bs rect).startOffset) := by
  rw [childRects_measured m vertical align bs ds rect hlen, rectsFrom_spans,
    main_axis_set_main_axis, List.map_map]
  congr 1
  apply List.map_congr_left
  intro b _
  simp [patched_main]

/-! ## The locals settled before the loops -/

theorem flowParams_expandable (d : Dimensions) (vertical : Bool) (align : Nat) (bs : List Block)
    (rect : Rect) (hk : 0 < bs.countP Block.can_expand) :
    PanelBlock.flowParams d vertical align bs rect
      = ⟨0, 0, Int.tdiv (leftover vertical d rect) (bs.countP Block.can_expand : Nat)⟩ := by
  simp [PanelBlock.flowParams, hk, leftover, Rect.mainSize, Dimensions.main]

theorem flowParams_share_zero (d : Dimensions) (vertical : Bool) (align : Nat) (bs : List Block)
    (rect : Rect) (hk : bs.countP Block.can_expand = 0) :
    (PanelBlock.flowParams d vertical align bs rect).spacePerExpandableBlock = 0 := by
  simp only [PanelBlock.flowParams, hk]
  split_ifs <;> simp

theorem flowParams_start (d : Dimensions) (vertical : Bool) (align : Nat) (bs : List Block)
    (rect : Rect) (hk : bs.countP Block.can_expand = 0) (hs : align &&& START = START) :
    PanelBlock.flowParams d vertical align bs rect = ⟨0, 0, 0⟩ := by
  simp only [PanelBlock.flowParams, hk, hs]
  split_ifs <;> simp

theorem flowParams_center (d : Dimensions) (vertical : Bool) (align : Nat) (bs : List Block)
    (rect : Rect) (hk : bs.countP Block.can_expand = 0) (hL : 0 < leftover vertical d rect)
    (hs : align &&& START ≠ START) (hc : align &&& CENTER = CENTER) :
    PanelBlock.flowParams d vertical align bs rect
      = ⟨Int.tdiv (leftover vertical d rect) 2, 0, 0⟩ := by
  simp only [leftover, Rect.mainSize, Dimensions.main] at hL
  simp [PanelBlock.flowParams, hk, hs, hc, hL, leftover, Rect.mainSize, Dimensions.main]

theorem flowParams_end (d : Dimensions) (vertical : Bool) (align : Nat) (bs : List Block)
    (rect : Rect) (hk : bs.countP Block.can_expand = 0) (hL : 0 < leftover vertical d rect)
    (hs : align &&& START ≠ START) (hc : align &&& CENTER ≠ CENTER) (he : align &&& END = END) :
    PanelBlock.flowParams d vertical align bs rect = ⟨leftover vertical d rect, 0, 0⟩ := by
  simp only [leftover, Rect.mainSize, Dimensions.main] at hL
  simp [PanelBlock.flowParams, hk, hs, hc, he, hL, leftover, Rect.mainSize, Dimensions.main]

theorem flowParams_space_between (d : Dimensions) (vertical : Bool) (align : Nat)
    (bs : List Block) (rect : Rect) (hk : bs.countP Block.can_expand = 0)
    (hL : 0 < leftover vertical d rect)
    (hs : align &&& START ≠ START) (hc : align &&& CENTER ≠ CENTER) (he : align &&& END ≠ END) :
    PanelBlock.flowParams d vertical align bs rect
      = ⟨0, if bs.length > 1 then Int.tdiv (leftover vertical d rect) ((bs.length - 1 : Nat) : Int)
            else Int.tdiv (leftover vertical d rect) 2, 0⟩ := by
  simp only [leftover, Rect.mainSize, Dimensions.main] at hL
  simp [PanelBlock.flowParams, hk, hs, hc, he, hL, leftover, Rect.mainSize, Dimensions.main]

theorem flowParams_no_leftover (d : Dimensions) (vertical : Bool) (align : Nat)
    (bs : List Block) (rect : Rect) (hk : bs.countP Block.can_expand = 0)
    (hL : leftover vertical d rect ≤ 0) :
    PanelBlock.flowParams d vertical align bs rect = ⟨0, 0, 0⟩ := by
  simp only [leftover, Rect.mainSize, Dimensions.main] at hL
  simp [PanelBlock.flowParams, hk, not_lt.mpr hL]

theorem countP_eq_zero_of_none (bs : List Block) (h : ∀ b ∈ bs, b.can_expand = false) :
    bs.countP Block.can_expand = 0 := by
  rw [List.countP_eq_zero]
  intro b hb
  simp [h b hb]

theorem countP_pos_of_some (bs : List Block) (h : ∃ b ∈ bs, b.can_expand = true) :
    0 < bs.countP Block.can_expand := by
  rw [List.countP_pos_iff]
  exact h

/-! ## The panel handed a rectangle right after `measure` -/

theorem panelSize_align (m : Dimensions) (vertical : Bool) (a1 a2 : Nat) (bs : List Block)
    (ds : List Dimensions) :
    panelSize m vertical a1 bs ds = panelSize m vertical a2 bs ds := by
  simp [panelSize, Block.measure]

theorem panelSize_main (m : Dimensions) (vertical : Bool) (align : Nat) (bs : List Block)
    (ds : List Dimensions) :
    (panelSize m vertical align bs ds).main vertical
      = (bs.map (fun b => b.measuredSize.main vertical)).sum := by
  have h := measureLoop_main vertical bs 0 ds 0 0
  have h0 : main_axis vertical 0 0 = 0 := by cases vertical <;> rfl
  rw [h0, zero_add] at h
  simpa only [panelSize, Block.measure] using h

theorem panelSize_cross (m : Dimensions) (vertical : Bool) (align : Nat) (bs : List Block)
    (ds : List Dimensions) :
    (panelSize m vertical align bs ds).cross vertical
      = (bs.map (fun b => b.measuredSize.cross vertical)).foldl max 0 := by
  have h := measureLoop_cross vertical bs 0 ds 0 0
  have h0 : cross_axis vertical 0 0 = 0 := by cases vertical <;> rfl
  rw [h0] at h
  simpa only [panelSize, Block.measure] using h

/-- Child `i` of a panel rendered right after `measure`: where its rectangle
starts on the main axis and how long it is. -/
theorem measured_child_span (m : Dimensions) (vertical : Bool) (align : Nat) (bs : List Block)
    (ds : List Dimensions) (rect : Rect) (hlen : ds.length = bs.length)
    (i : Nat) (b : Block) (hb : bs[i]? = some b) :
    ∃ r, ((measuredPanel m vertical align bs ds).childRects rect)[i]? = some r
      ∧ r.mainOrigin vertical
          = rect.mainOrigin vertical
            + (PanelBlock.flowParams (panelSize m vertical align bs ds)
                vertical align bs rect).startOffset
            + ((bs.take i).map (fun c => c.measuredSize.main vertical +
                (if c.can_expand then
                  (PanelBlock.flowParams (panelSize m vertical align bs ds)
                    vertical align bs rect).spacePerExpandableBlock else 0))).sum
            + i * (PanelBlock.flowParams (panelSize m vertical align bs ds)
                vertical align bs rect).flowPadding
      ∧ r.mainSize vertical
          = b.measuredSize.main vertical +
              (if b.can_expand then
                (PanelBlock.flowParams (panelSize m vertical align bs ds)
                  vertical align bs rect).spacePerExpandableBlock else 0) := by
  have hspans := mainSpans_measured m vertical align bs ds rect hlen
  have hget := spansFrom_getElem?
    (PanelBlock.flowParams (panelSize m vertical align bs ds) vertical align bs rect).flowPadding
    (bs.map (fun c => c.measuredSize.main vertical +
      (if c.can_expand then
        (PanelBlock.flowParams (panelSize m vertical align bs ds)
          vertical align bs rect).spacePerExpandableBlock else 0)))
    i
    (rect.mainOrigin vertical +
      (PanelBlock.flowParams (panelSize m vertical align bs ds)
        vertical align bs rect).startOffset)
    _ (by rw [List.getElem?_map, hb]; rfl)
  simp only [panelSize] at hget
  rw [← hspans, List.getElem?_map] at hget
  cases hr : ((Block.measure (.panel m vertical align bs ds)).2.childRects rect)[i]? with
  | none => rw [hr] at hget; simp at hget
  | some r =>
      rw [hr] at hget
      simp only [Option.map_some', Option.some.injEq, Rect.mainSpan, Prod.mk.injEq] at hget
      refine ⟨r, by simpa [measuredPanel] using hr, ?_, ?_⟩
      · rw [hget.1, List.map_take]; rfl
      · rw [hget.2]; rfl

/-! ## Consequences for the children of a measured panel -/

theorem spansFrom_head (pad : Int) (ms : List Int) (c : Int) (s : Int × Int)
    (h : (spansFrom pad ms c)[0]? = some s) : s.1 = c := by
  cases ms with
  | nil => simp [spansFrom] at h
  | cons m ms =>
      simp only [spansFrom, List.getElem?_cons_zero, Option.some.injEq] at h
      rw [← h]

theorem spansFrom_succ (pad : Int) (ms : List Int) :
    ∀ (i : Nat) (c : Int) (s s2 : Int × Int),
      (spansFrom pad ms c)[i]? = some s → (spansFrom pad ms c)[i + 1]? = some s2 →
      s2.1 = s.1 + s.2 + pad := by
  induction ms with
  | nil => intro i c s s2 h; simp [spansFrom] at h
  | cons m ms ih =>
      intro i c s s2 h h2
      cases i with
      | zero =>
          simp only [spansFrom, List.getElem?_cons_zero, Option.some.injEq] at h
          simp only [spansFrom, List.getElem?_cons_succ] at h2
          rw [spansFrom_head pad ms _ s2 h2, ← h]
          ring
      | succ j =>
          simp only [spansFrom, List.getElem?_cons_succ] at h h2
          exact ih j _ s s2 h h2

theorem sum_with_share (f : Block → Int) (share : Int) (bs : List Block) :
    (bs.map (fun b => f b + (if b.can_expand then share else 0))).sum
      = (bs.map f).sum + (bs.countP Block.can_expand : Nat) * share := by
  induction bs with
  | nil => simp
  | cons b bs ih =>
      simp only [List.map_cons, List.sum_cons, ih, List.countP_cons]
      cases hb : b.can_expand <;> simp <;> ring

theorem sum_without_share (f : Block → Int) (share : Int) (bs : List Block)
    (hne : ∀ b ∈ bs, b.can_expand = false) :
    (bs.map (fun b => f b + (if b.can_expand then share else 0))).sum = (bs.map f).sum := by
  rw [sum_with_share, countP_eq_zero_of_none bs hne]
  simp

/-- Child `i` of a panel without expandable children, rendered right after
`measure`. -/
theorem measured_child_span_fixed (m : Dimensions) (vertical : Bool) (align : Nat)
    (bs : List Block) (ds : List Dimensions) (rect : Rect) (hlen : ds.length = bs.length)
    (hne : ∀ b ∈ bs, b.can_expand = false) (i : Nat) (b : Block) (hb : bs[i]? = some b) :
    ∃ r, ((measuredPanel m vertical align bs ds).childRects rect)[i]? = some r
      ∧ r.mainOrigin vertical
          = rect.mainOrigin vertical
            + (PanelBlock.flowParams (panelSize m vertical align bs ds)
                vertical align bs rect).startOffset
            + ((bs.take i).map (fun c => c.measuredSize.main vertical)).sum
            + i * (PanelBlock.flowParams (panelSize m vertical align bs ds)
                vertical align bs rect).flowPadding
      ∧ r.mainSize vertical = b.measuredSize.main vertical := by
  obtain ⟨r, hr, ho, hs⟩ := measured_child_span m vertical align bs ds rect hlen i b hb
  refine ⟨r, hr, ?_, ?_⟩
  · rw [ho, sum_without_share _ _ _ (fun c hc => hne c (List.mem_of_mem_take hc))]
  · rw [hs, hne b (List.getElem?_mem hb)]; simp

/-- Rectangles of an arbitrary panel state under `STRETCH`. -/
theorem renderLoop_stretch (vertical : Bool) (align : Nat) (rect : Rect) (pad : Int)
    (ds : List Dimensions) (hs : align &&& STRETCH = STRETCH) (bs : List Block) :
    ∀ (i : Nat) (x y : Int) (c : ChildRender),
      c ∈ PanelBlock.renderLoop vertical align rect pad ds bs i x y →
      c.rect.crossSize vertical = rect.crossSize vertical
        ∧ c.rect.crossOrigin vertical = cross_axis vertical x y := by
  induction bs with
  | nil => intro i x y c hc; simp [PanelBlock.renderLoop] at hc
  | cons b rest ih =>
      intro i x y c hc
      simp only [PanelBlock.renderLoop, List.mem_cons] at hc
      rcases hc with h | h
      · rw [h]; exact childRect_stretch vertical align rect _ x y hs
      · have := ih _ _ _ c h
        rwa [cross_axis_set_main_axis] at this

theorem renderLoop_length (vertical : Bool) (align : Nat) (rect : Rect) (pad : Int)
    (ds : List Dimensions) (bs : List Block) :
    ∀ (i : Nat) (x y : Int),
      (PanelBlock.renderLoop vertical align rect pad ds bs i x y).length = bs.length := by
  induction bs with
  | nil => intro i x y; simp [PanelBlock.renderLoop]
  | cons b rest ih => intro i x y; simp [PanelBlock.renderLoop, ih]

/-! ## Panel: measure -/

/-- C1. For every panel, in both orientations and for every list of children,
`measure` returns a main-axis size (height if vertical, width if horizontal)
equal to the sum of the main-axis sizes `measure` returns on the children. -/
theorem panel_measure_main_is_sum (m : Dimensions) (vertical : Bool) (align : Nat)
    (blocks : List Block) (ds : List Dimensions) :
    (Block.measure (.panel m vertical align blocks ds)).1.main vertical
      = (blocks.map (fun b => (Block.measure b).1.main vertical)).sum :=
  panelSize_main m vertical align blocks ds

/-- C2, as stated, fails: a vertical panel whose only child is
`PaddingBlock(-5, 3)` measures to width `0`, while the maximum of its
children's widths is `-5`. -/
theorem panel_measure_cross_not_max_of_children :
    (Block.measure (PanelBlock.new true SPACE_BETWEEN [PaddingBlock.new (-5) 3])).1.cross true = 0
      ∧ [PaddingBlock.new (-5) 3].map (fun b => (Block.measure b).1.cross true) = [-5]
      ∧ ¬ IsGreatest
          {c | c ∈ [PaddingBlock.new (-5) 3].map (fun b => (Block.measure b).1.cross true)}
          ((Block.measure
            (PanelBlock.new true SPACE_BETWEEN [PaddingBlock.new (-5) 3])).1.cross true) := by
  refine ⟨by decide, by decide, ?_⟩
  intro h
  have h1 := h.1
  have e1 : (Block.measure
      (PanelBlock.new true SPACE_BETWEEN [PaddingBlock.new (-5) 3])).1.cross true = 0 := by decide
  have e2 : [PaddingBlock.new (-5) 3].map (fun b => (Block.measure b).1.cross true) = [-5] := by
    decide
  rw [e1, e2] at h1
  simp at h1

/-- C2, amended. For every panel, in both orientations, `measure` returns a
cross-axis size (width if vertical, height if horizontal) equal to the greatest
of `0` and the children's measured cross-axis sizes; when some child has a
measured cross-axis size that is not negative, this is the maximum of the
children's measured cross-axis sizes. -/
theorem panel_measure_cross_is_max_with_zero (m : Dimensions) (vertical : Bool) (align : Nat)
    (blocks : List Block) (ds : List Dimensions) :
    IsGreatest {c | c = 0 ∨ c ∈ blocks.map (fun b => (Block.measure b).1.cross vertical)}
        ((Block.measure (.panel m vertical align blocks ds)).1.cross vertical)
      ∧ ((∃ b ∈ blocks, 0 ≤ (Block.measure b).1.cross vertical) →
          IsGreatest {c | c ∈ blocks.map (fun b => (Block.measure b).1.cross vertical)}
            ((Block.measure (.panel m vertical align blocks ds)).1.cross vertical)) := by
  have hc := panelSize_cross m vertical align blocks ds
  simp only [panelSize, Block.measuredSize] at hc
  rw [hc]
  have hg := foldl_max_isGreatest (blocks.map (fun b => (Block.measure b).1.cross vertical)) 0
  refine ⟨hg, ?_⟩
  rintro ⟨b, hb, hpos⟩
  obtain ⟨hmem, hub⟩ := hg
  refine ⟨?_, fun x hx => hub (Or.inr hx)⟩
  rcases hmem with h0 | h
  · have hle : (Block.measure b).1.cross vertical ≤ 0 := by
      have := hub (Or.inr (List.mem_map_of_mem (fun b => (Block.measure b).1.cross vertical) hb))
      rwa [h0] at this
    have heq : (Block.measure b).1.cross vertical = 0 := le_antisymm hle hpos
    show _ ∈ blocks.map (fun b => (Block.measure b).1.cross vertical)
    rw [h0, ← heq]
    exact List.mem_map_of_mem (fun b => (Block.measure b).1.cross vertical) hb
  · exact h

/-- Witness for C2 (amended): a vertical panel over `PaddingBlock(4, 3)` and
`PaddingBlock(-5, 6)` measures to the maximum of the children's widths. -/
theorem panel_measure_cross_is_max_with_zero_witness :
    IsGreatest
      {c | c ∈ [PaddingBlock.new 4 3, PaddingBlock.new (-5) 6].map
        (fun b => (Block.measure b).1.cross true)}
      ((Block.measure (.panel ⟨0, 0⟩ true SPACE_BETWEEN
        [PaddingBlock.new 4 3, PaddingBlock.new (-5) 6] [⟨0, 0⟩, ⟨0, 0⟩])).1.cross true) :=
  (panel_measure_cross_is_max_with_zero ⟨0, 0⟩ true SPACE_BETWEEN
    [PaddingBlock.new 4 3, PaddingBlock.new (-5) 6] [⟨0, 0⟩, ⟨0, 0⟩]).2
    ⟨PaddingBlock.new 4 3, List.mem_cons_self _ _, by decide⟩

/-! ## Panel: render with expandable children -/

/-- C3. A panel (with `_blockDimensions` as long as `_blocks`) is measured and
then rendered into `rect`; `L` is the allocated main-axis size minus the
measured one (of any sign) and `k` the number of expandable children.  Every
expandable child is handed a rectangle whose main-axis size is its measured
main-axis size plus `L / k`, the division truncating toward zero. -/
theorem expandable_child_gets_share (m : Dimensions) (vertical : Bool) (align : Nat)
    (blocks : List Block) (ds : List Dimensions) (rect : Rect)
    (hlen : ds.length = blocks.length) (i : Nat) (b : Block)
    (hb : blocks[i]? = some b) (hexp : b.can_expand = true) :
    ∃ r, ((Block.measure (.panel m vertical align blocks ds)).2.childRects rect)[i]? = some r
      ∧ r.mainSize vertical
          = (Block.measure b).1.main vertical
            + Int.tdiv
                (rect.mainSize vertical
                  - (Block.measure (.panel m vertical align blocks ds)).1.main vertical)
                (blocks.countP Block.can_expand : Nat) := by
  obtain ⟨r, hr, _, hsize⟩ := measured_child_span m vertical align blocks ds rect hlen i b hb
  refine ⟨r, hr, ?_⟩
  have hk : 0 < blocks.countP Block.can_expand :=
    countP_pos_of_some blocks ⟨b, List.getElem?_mem hb, hexp⟩
  rw [hsize, flowParams_expandable _ _ _ _ _ hk]
  simp [hexp, leftover, panelSize, Block.measuredSize]

/-- Witness for C3: a horizontal panel over a 10-wide padding, an expandable
10-wide padding and another 10-wide padding measures to width 30; rendered
into a rectangle of width 50, the expandable child is handed width 30, the
whole leftover 20 on top of its measured 10. -/
theorem expandable_child_gets_share_witness :
    (Block.measure (PanelBlock.new false STRETCH
        [PaddingBlock.new 10 5, ExpandBlock.new (PaddingBlock.new 10 7),
         PaddingBlock.new 10 2])).1.width = 30
      ∧ ∃ r, ((Block.measure (PanelBlock.new false STRETCH
          [PaddingBlock.new 10 5, ExpandBlock.new (PaddingBlock.new 10 7),
           PaddingBlock.new 10 2])).2.childRects ⟨0, 0, 50, 9⟩)[1]? = some r
        ∧ r.mainSize false = 10 + 20 := by
  refine ⟨by decide, ?_⟩
  obtain ⟨r, hr, hs⟩ := expandable_child_gets_share ⟨0, 0⟩ false STRETCH
    [PaddingBlock.new 10 5, ExpandBlock.new (PaddingBlock.new 10 7), PaddingBlock.new 10 2]
    [⟨0, 0⟩, ⟨0, 0⟩, ⟨0, 0⟩] ⟨0, 0, 50, 9⟩ rfl 1 (ExpandBlock.new (PaddingBlock.new 10 7))
    rfl rfl
  exact ⟨r, hr, hs.trans (by decide)⟩


/-! ## Panel: render without expandable children, `SPACE_BETWEEN` -/

/-- C4. A panel of more than one child, none expandable, whose `Align` has none
of the `START`, `CENTER`, `END` bits, is measured and then rendered into a
rectangle that leaves a positive leftover `L`.  Child `i` (0-based) is handed a
rectangle whose main-axis origin is the origin of the panel plus the measured
main-axis sizes of the children before it plus `i * (L / (n - 1))`. -/
theorem space_between_child_origin (m : Dimensions) (vertical : Bool) (align : Nat)
    (blocks : List Block) (ds : List Dimensions) (rect : Rect)
    (hlen : ds.length = blocks.length) (hn : 1 < blocks.length)
    (hne : ∀ b ∈ blocks, b.can_expand = false)
    (hs : align &&& START ≠ START) (hc : align &&& CENTER ≠ CENTER) (he : align &&& END ≠ END)
    (hL : 0 < rect.mainSize vertical
      - (Block.measure (.panel m vertical align blocks ds)).1.main vertical)
    (i : Nat) (b : Block) (hb : blocks[i]? = some b) :
    ∃ r, ((Block.measure (.panel m vertical align blocks ds)).2.childRects rect)[i]? = some r
      ∧ r.mainOrigin vertical
          = rect.mainOrigin vertical
            + ((blocks.take i).map (fun c => (Block.measure c).1.main vertical)).sum
            + i * Int.tdiv
                (rect.mainSize vertical
                  - (Block.measure (.panel m vertical align blocks ds)).1.main vertical)
                ((blocks.length - 1 : Nat) : Int) := by
  obtain ⟨r, hr, ho, _⟩ :=
    measured_child_span_fixed m vertical align blocks ds rect hlen hne i b hb
  refine ⟨r, hr, ?_⟩
  have hL2 : 0 < leftover vertical (panelSize m vertical align blocks ds) rect := hL
  rw [ho, flowParams_space_between (panelSize m vertical align blocks ds) vertical align blocks
    rect (countP_eq_zero_of_none blocks hne) hL2 hs hc he]
  simp [hn, leftover, panelSize, Block.measuredSize]

/-- Witness for C4: three children of width 10 in a horizontal `SPACE_BETWEEN`
panel rendered into a rectangle of width 50 at the origin land at x = 0, 20, 40. -/
theorem space_between_child_origin_witness :
    ((Block.measure (PanelBlock.new false SPACE_BETWEEN
        [PaddingBlock.new 10 5, PaddingBlock.new 10 7, PaddingBlock.new 10 2])).2.childRects
        ⟨0, 0, 50, 9⟩).map Rect.x = [0, 20, 40]
      ∧ ∃ r, ((Block.measure (PanelBlock.new false SPACE_BETWEEN
          [PaddingBlock.new 10 5, PaddingBlock.new 10 7, PaddingBlock.new 10 2])).2.childRects
          ⟨0, 0, 50, 9⟩)[2]? = some r
        ∧ r.mainOrigin false = 0 + (10 + 10) + 2 * 10 := by
  refine ⟨by decide, ?_⟩
  obtain ⟨r, hr, ho⟩ := space_between_child_origin ⟨0, 0⟩ false SPACE_BETWEEN
    [PaddingBlock.new 10 5, PaddingBlock.new 10 7, PaddingBlock.new 10 2]
    [⟨0, 0⟩, ⟨0, 0⟩, ⟨0, 0⟩] ⟨0, 0, 50, 9⟩ rfl (by decide) (by decide) (by decide) (by decide)
    (by decide) (by decide) 2 (PaddingBlock.new 10 2) rfl
  exact ⟨r, hr, ho.trans (by decide)⟩

/-- C5, the code at the failing input. A horizontal `SPACE_BETWEEN` panel over
the single child `PaddingBlock(10, 5)` measures to width 10; rendered into a
rectangle of width 50 at the origin (leftover 40) it hands the child the
rectangle at x = 0, not at x = 40 / 2 = 20: `flowPadding` is `40 / 2`, but it is
only added to the cursor after the child, and `startOffset` stays 0. -/
theorem single_child_space_between_at_origin :
    (Block.measure (PanelBlock.new false SPACE_BETWEEN [PaddingBlock.new 10 5])).1 = ⟨10, 5⟩
      ∧ (Block.measure (PanelBlock.new false SPACE_BETWEEN [PaddingBlock.new 10 5])).2.childRects
          ⟨0, 0, 50, 5⟩ = [⟨0, 0, 10, 5⟩]
      ∧ PanelBlock.flowParams ⟨10, 5⟩ false SPACE_BETWEEN [PaddingBlock.new 10 5] ⟨0, 0, 50, 5⟩
          = ⟨0, 20, 0⟩ := by
  refine ⟨by decide, by decide, by decide⟩

/-! ## Panel: who grows -/

/-- C6. A panel is measured and then rendered, with any `Align` and into any
rectangle.  Every child whose `can_expand()` is false is handed a rectangle
whose main-axis size is its measured main-axis size, whether or not other
children are expandable. -/
theorem fixed_child_keeps_measured_main (m : Dimensions) (vertical : Bool) (align : Nat)
    (blocks : List Block) (ds : List Dimensions) (rect : Rect)
    (hlen : ds.length = blocks.length) (i : Nat) (b : Block)
    (hb : blocks[i]? = some b) (hfix : b.can_expand = false) :
    ∃ r, ((Block.measure (.panel m vertical align blocks ds)).2.childRects rect)[i]? = some r
      ∧ r.mainSize vertical = (Block.measure b).1.main vertical := by
  obtain ⟨r, hr, _, hsize⟩ := measured_child_span m vertical align blocks ds rect hlen i b hb
  refine ⟨r, hr, ?_⟩
  rw [hsize, hfix]
  simp [Block.measuredSize]

/-- Witness for C6: next to an expandable sibling, in a rectangle 20 wider than
the content, the fixed third child keeps its measured width 10. -/
theorem fixed_child_keeps_measured_main_witness :
    ∃ r, ((Block.measure (PanelBlock.new false CENTER
        [PaddingBlock.new 10 5, ExpandBlock.new (PaddingBlock.new 10 7),
         PaddingBlock.new 10 2])).2.childRects ⟨0, 0, 50, 9⟩)[2]? = some r
      ∧ r.mainSize false = 10 := by
  obtain ⟨r, hr, hs⟩ := fixed_child_keeps_measured_main ⟨0, 0⟩ false CENTER
    [PaddingBlock.new 10 5, ExpandBlock.new (PaddingBlock.new 10 7), PaddingBlock.new 10 2]
    [⟨0, 0⟩, ⟨0, 0⟩, ⟨0, 0⟩] ⟨0, 0, 50, 9⟩ rfl 2 (PaddingBlock.new 10 2) rfl rfl
  exact ⟨r, hr, hs.trans (by decide)⟩


/-! ## Panel: expansion against alignment -/

/-- C7. A panel with at least one expandable child is measured and then
rendered, with any `Align` and into any rectangle.  The start offset and the
inter-item padding computed for its children are both 0; the first child is
handed a rectangle that starts at the panel's main-axis origin, and every
following child one that starts where the main-axis extent of the rectangle of
the child before it ends. -/
theorem expand_wins_over_alignment (m : Dimensions) (vertical : Bool) (align : Nat)
    (blocks : List Block) (ds : List Dimensions) (rect : Rect)
    (hlen : ds.length = blocks.length) (hex : ∃ b ∈ blocks, b.can_expand = true) :
    (PanelBlock.flowParams (Block.measure (.panel m vertical align blocks ds)).1 vertical align
        (blocks.map (fun b => (Block.measure b).2)) rect).startOffset = 0
      ∧ (PanelBlock.flowParams (Block.measure (.panel m vertical align blocks ds)).1 vertical
          align (blocks.map (fun b => (Block.measure b).2)) rect).flowPadding = 0
      ∧ (∀ r, ((Block.measure (.panel m vertical align blocks ds)).2.childRects rect)[0]? = some r →
          r.mainOrigin vertical = rect.mainOrigin vertical)
      ∧ (∀ i r r2,
          ((Block.measure (.panel m vertical align blocks ds)).2.childRects rect)[i]? = some r →
          ((Block.measure (.panel m vertical align blocks ds)).2.childRects rect)[i + 1]? = some r2 →
          r2.mainOrigin vertical = r.mainOrigin vertical + r.mainSize vertical) := by
  have hk := countP_pos_of_some blocks hex
  have hfp := flowParams_expandable (Block.measure (.panel m vertical align blocks ds)).1
    vertical align blocks rect hk
  have hspans := mainSpans_measured m vertical align blocks ds rect hlen
  rw [hfp] at hspans
  simp only [add_zero] at hspans
  refine ⟨by rw [flowParams_measure, hfp], by rw [flowParams_measure, hfp], ?_, ?_⟩
  · intro r hr
    have h0 : (((Block.measure (.panel m vertical align blocks ds)).2.childRects rect).map
        (Rect.mainSpan vertical))[0]? = some (r.mainSpan vertical) := by
      rw [List.getElem?_map, hr]; rfl
    rw [hspans] at h0
    exact spansFrom_head _ _ _ _ h0
  · intro i r r2 hr hr2
    have h1 : (((Block.measure (.panel m vertical align blocks ds)).2.childRects rect).map
        (Rect.mainSpan vertical))[i]? = some (r.mainSpan vertical) := by
      rw [List.getElem?_map, hr]; rfl
    have h2 : (((Block.measure (.panel m vertical align blocks ds)).2.childRects rect).map
        (Rect.mainSpan vertical))[i + 1]? = some (r2.mainSpan vertical) := by
      rw [List.getElem?_map, hr2]; rfl
    rw [hspans] at h1 h2
    have := spansFrom_succ _ _ _ _ _ _ h1 h2
    simpa [Rect.mainSpan] using this

/-- Witness for C7: under `END`, with one expandable child among three and a
leftover of 20, the children are handed x = 0, 10, 40 and widths 10, 30, 10. -/
theorem expand_wins_over_alignment_witness :
    ((Block.measure (PanelBlock.new false END
        [PaddingBlock.new 10 5, ExpandBlock.new (PaddingBlock.new 10 7),
         PaddingBlock.new 10 2])).2.childRects ⟨0, 0, 50, 9⟩).map (Rect.mainSpan false)
        = [(0, 10), (10, 30), (40, 10)]
      ∧ ∀ r r2,
          ((Block.measure (PanelBlock.new false END
            [PaddingBlock.new 10 5, ExpandBlock.new (PaddingBlock.new 10 7),
             PaddingBlock.new 10 2])).2.childRects ⟨0, 0, 50, 9⟩)[1]? = some r →
          ((Block.measure (PanelBlock.new false END
            [PaddingBlock.new 10 5, ExpandBlock.new (PaddingBlock.new 10 7),
             PaddingBlock.new 10 2])).2.childRects ⟨0, 0, 50, 9⟩)[1 + 1]? = some r2 →
          r2.mainOrigin false = r.mainOrigin false + r.mainSize false :=
  ⟨by decide,
   (expand_wins_over_alignment ⟨0, 0⟩ false END
      [PaddingBlock.new 10 5, ExpandBlock.new (PaddingBlock.new 10 7), PaddingBlock.new 10 2]
      [⟨0, 0⟩, ⟨0, 0⟩, ⟨0, 0⟩] ⟨0, 0, 50, 9⟩ rfl
      ⟨ExpandBlock.new (PaddingBlock.new 10 7), by simp, rfl⟩).2.2.2 1⟩

/-- C8. A panel with `k >= 1` expandable children is measured and then rendered
into a rectangle that leaves a leftover `L >= 0`.  The main-axis sizes of the
rectangles handed to the children sum to the allocated main-axis size minus
`L mod k`: they never exceed the allocated size and fall short of it by fewer
than `k`. -/
theorem expand_drops_remainder (m : Dimensions) (vertical : Bool) (align : Nat)
    (blocks : List Block) (ds : List Dimensions) (rect : Rect)
    (hlen : ds.length = blocks.length) (hk : 1 ≤ blocks.countP Block.can_expand)
    (hL : 0 ≤ rect.mainSize vertical
      - (Block.measure (.panel m vertical align blocks ds)).1.main vertical) :
    (((Block.measure (.panel m vertical align blocks ds)).2.childRects rect).map
        (Rect.mainSize vertical)).sum
        = rect.mainSize vertical
          - (rect.mainSize vertical
              - (Block.measure (.panel m vertical align blocks ds)).1.main vertical)
            % (blocks.countP Block.can_expand : Nat)
      ∧ (((Block.measure (.panel m vertical align blocks ds)).2.childRects rect).map
          (Rect.mainSize vertical)).sum ≤ rect.mainSize vertical
      ∧ rect.mainSize vertical
          - (((Block.measure (.panel m vertical align blocks ds)).2.childRects rect).map
              (Rect.mainSize vertical)).sum
          < (blocks.countP Block.can_expand : Nat) := by
  have hfp := flowParams_expandable (Block.measure (.panel m vertical align blocks ds)).1
    vertical align blocks rect hk
  have hspans := mainSpans_measured m vertical align blocks ds rect hlen
  rw [hfp] at hspans
  have hsizes : ((Block.measure (.panel m vertical align blocks ds)).2.childRects rect).map
      (Rect.mainSize vertical)
      = (((Block.measure (.panel m vertical align blocks ds)).2.childRects rect).map
          (Rect.mainSpan vertical)).map Prod.snd := by
    rw [List.map_map]; rfl
  have hmain := panelSize_main m vertical align blocks ds
  simp only [panelSize] at hmain
  have hkpos : (0 : Int) < (blocks.countP Block.can_expand : Nat) := by exact_mod_cast hk
  have hsum : (((Block.measure (.panel m vertical align blocks ds)).2.childRects rect).map
      (Rect.mainSize vertical)).sum
      = rect.mainSize vertical
        - (rect.mainSize vertical
            - (Block.measure (.panel m vertical align blocks ds)).1.main vertical)
          % (blocks.countP Block.can_expand : Nat) := by
    rw [hsizes, hspans, spansFrom_sizes, sum_with_share, ← hmain]
    simp only [leftover]
    rw [Int.tdiv_eq_ediv hL (le_of_lt hkpos)]
    have := Int.emod_add_ediv (rect.mainSize vertical
      - (Block.measure (.panel m vertical align blocks ds)).1.main vertical)
      (blocks.countP Block.can_expand : Nat)
    linarith
  have h1 := Int.emod_nonneg (rect.mainSize vertical
    - (Block.measure (.panel m vertical align blocks ds)).1.main vertical) (ne_of_gt hkpos)
  have h2 := Int.emod_lt_of_pos (rect.mainSize vertical
    - (Block.measure (.panel m vertical align blocks ds)).1.main vertical) hkpos
  refine ⟨hsum, ?_, ?_⟩
  · rw [hsum]; linarith
  · rw [hsum]; linarith

/-- Witness for C8: two expandable children and leftover 21 (content 29 in a
rectangle of width 50): each grows by 10, the children take 49 and 1 is lost. -/
theorem expand_drops_remainder_witness :
    ((Block.measure (PanelBlock.new false STRETCH
        [ExpandBlock.new (PaddingBlock.new 10 5), ExpandBlock.new (PaddingBlock.new 10 7),
         PaddingBlock.new 9 2])).2.childRects ⟨0, 0, 50, 9⟩).map (Rect.mainSize false)
        = [20, 20, 9]
      ∧ (((Block.measure (PanelBlock.new false STRETCH
          [ExpandBlock.new (PaddingBlock.new 10 5), ExpandBlock.new (PaddingBlock.new 10 7),
           PaddingBlock.new 9 2])).2.childRects ⟨0, 0, 50, 9⟩).map (Rect.mainSize false)).sum
          = 50 - 1 := by
  refine ⟨by decide, ?_⟩
  exact (expand_drops_remainder ⟨0, 0⟩ false STRETCH
    [ExpandBlock.new (PaddingBlock.new 10 5), ExpandBlock.new (PaddingBlock.new 10 7),
     PaddingBlock.new 9 2] [⟨0, 0⟩, ⟨0, 0⟩, ⟨0, 0⟩] ⟨0, 0, 50, 9⟩ rfl (by decide)
    (by decide)).1.trans (by decide)


/-! ## Panel: priority among the main-axis bits -/

/-- C9. A panel without expandable children is measured and then rendered into
a rectangle that leaves a positive leftover.  If the `START` bit of its `Align`
is set (alone or with `CENTER`, `END` or any other bit), the children are handed
the same main-axis origins and sizes as under `START` alone: child `i` starts
at the panel's main-axis origin plus the measured main-axis sizes of the
children before it, and has its measured main-axis size.  If the `CENTER` bit
is set and the `START` bit is not (whatever the `END` bit), the children are
handed the same main-axis origins and sizes as under `CENTER` alone. -/
theorem main_axis_bit_priority (m : Dimensions) (vertical : Bool) (align : Nat)
    (blocks : List Block) (ds : List Dimensions) (rect : Rect)
    (hlen : ds.length = blocks.length) (hne : ∀ b ∈ blocks, b.can_expand = false)
    (hL : 0 < rect.mainSize vertical
      - (Block.measure (.panel m vertical align blocks ds)).1.main vertical) :
    (align &&& START = START →
        ((Block.measure (.panel m vertical align blocks ds)).2.childRects rect).map
            (Rect.mainSpan vertical)
          = ((Block.measure (.panel m vertical START blocks ds)).2.childRects rect).map
              (Rect.mainSpan vertical)
        ∧ ∀ i b, blocks[i]? = some b →
            ∃ r, ((Block.measure (.panel m vertical align blocks ds)).2.childRects rect)[i]?
                = some r
              ∧ r.mainOrigin vertical
                  = rect.mainOrigin vertical
                    + ((blocks.take i).map (fun c => (Block.measure c).1.main vertical)).sum
              ∧ r.mainSize vertical = (Block.measure b).1.main vertical)
      ∧ (align &&& START ≠ START → align &&& CENTER = CENTER →
          ((Block.measure (.panel m vertical align blocks ds)).2.childRects rect).map
              (Rect.mainSpan vertical)
            = ((Block.measure (.panel m vertical CENTER blocks ds)).2.childRects rect).map
                (Rect.mainSpan vertical)) := by
  have hk := countP_eq_zero_of_none blocks hne
  refine ⟨fun hs => ⟨?_, ?_⟩, fun hs hc => ?_⟩
  · rw [mainSpans_measured m vertical align blocks ds rect hlen,
      mainSpans_measured m vertical START blocks ds rect hlen,
      flowParams_start _ _ _ _ _ hk hs, flowParams_start _ _ _ _ _ hk (by decide)]
  · intro i b hb
    obtain ⟨r, hr, ho, hsz⟩ :=
      measured_child_span_fixed m vertical align blocks ds rect hlen hne i b hb
    refine ⟨r, hr, ?_, hsz⟩
    rw [ho, flowParams_start _ _ _ _ _ hk hs]
    simp [Block.measuredSize]
  · have hL1 : 0 < leftover vertical (Block.measure (.panel m vertical align blocks ds)).1 rect :=
      hL
    have hsize : (Block.measure (.panel m vertical CENTER blocks ds)).1
        = (Block.measure (.panel m vertical align blocks ds)).1 :=
      panelSize_align m vertical CENTER align blocks ds
    rw [mainSpans_measured m vertical align blocks ds rect hlen,
      mainSpans_measured m vertical CENTER blocks ds rect hlen, hsize,
      flowParams_center _ _ _ _ _ hk hL1 hs hc,
      flowParams_center _ _ _ _ _ hk hL1 (by decide) (by decide)]

/-- Witness for C9: with `START | END`, three fixed children of width 10 in a
rectangle of width 50 at x = 3 are handed x = 3, 13, 23, as under `START`. -/
theorem main_axis_bit_priority_witness :
    ((Block.measure (PanelBlock.new false (START ||| END)
        [PaddingBlock.new 10 5, PaddingBlock.new 10 7, PaddingBlock.new 10 2])).2.childRects
        ⟨3, 0, 50, 9⟩).map (Rect.mainSpan false) = [(3, 10), (13, 10), (23, 10)]
      ∧ ((Block.measure (.panel ⟨0, 0⟩ false (START ||| END)
          [PaddingBlock.new 10 5, PaddingBlock.new 10 7, PaddingBlock.new 10 2]
          [⟨0, 0⟩, ⟨0, 0⟩, ⟨0, 0⟩])).2.childRects ⟨3, 0, 50, 9⟩).map (Rect.mainSpan false)
        = ((Block.measure (.panel ⟨0, 0⟩ false START
            [PaddingBlock.new 10 5, PaddingBlock.new 10 7, PaddingBlock.new 10 2]
            [⟨0, 0⟩, ⟨0, 0⟩, ⟨0, 0⟩])).2.childRects ⟨3, 0, 50, 9⟩).map (Rect.mainSpan false) :=
  ⟨by decide,
   ((main_axis_bit_priority ⟨0, 0⟩ false (START ||| END)
      [PaddingBlock.new 10 5, PaddingBlock.new 10 7, PaddingBlock.new 10 2]
      [⟨0, 0⟩, ⟨0, 0⟩, ⟨0, 0⟩] ⟨3, 0, 50, 9⟩ rfl (by decide) (by decide)).1 (by decide)).1⟩

/-! ## Panel: cross axis -/

/-- C10. A panel whose `Align` has the `STRETCH` bit set (whatever its other
bits) is measured and then rendered, in either orientation and into any
rectangle.  There is one rectangle per child, and each has the cross-axis size
of the rectangle allocated to the panel and starts at its cross-axis origin. -/
theorem stretch_fills_cross_axis (m : Dimensions) (vertical : Bool) (align : Nat)
    (blocks : List Block) (ds : List Dimensions) (rect : Rect)
    (hs : align &&& STRETCH = STRETCH) :
    ((Block.measure (.panel m vertical align blocks ds)).2.childRects rect).length
        = blocks.length
      ∧ ∀ r ∈ (Block.measure (.panel m vertical align blocks ds)).2.childRects rect,
          r.crossSize vertical = rect.crossSize vertical
            ∧ r.crossOrigin vertical = rect.crossOrigin vertical := by
  simp only [Block.measure, Block.childRects, List.length_map, renderLoop_length,
    measureLoop_blocks, List.mem_map, forall_exists_index, and_imp, true_and]
  intro r c hc hr
  have := renderLoop_stretch vertical align rect _ _ hs _ _ _ _ c hc
  rw [hr] at this
  simp only [PanelBlock.start, cross_axis_set_main_axis] at this
  exact this

/-- Witness for C10: a vertical `STRETCH | MIDDLE` panel rendered into a
rectangle 40 wide at x = 7 hands both children x = 7 and width 40, whatever
their measured widths (10 and 60). -/
theorem stretch_fills_cross_axis_witness :
    (Block.measure (PanelBlock.new true (STRETCH ||| MIDDLE)
        [PaddingBlock.new 10 5, PaddingBlock.new 60 7])).2.childRects ⟨7, 1, 40, 30⟩
        = [⟨7, 1, 40, 5⟩, ⟨7, 24, 40, 7⟩]
      ∧ ∀ r ∈ (Block.measure (.panel ⟨0, 0⟩ true (STRETCH ||| MIDDLE)
          [PaddingBlock.new 10 5, PaddingBlock.new 60 7] [⟨0, 0⟩, ⟨0, 0⟩])).2.childRects
          ⟨7, 1, 40, 30⟩,
          r.crossSize true = Rect.crossSize true ⟨7, 1, 40, 30⟩
            ∧ r.crossOrigin true = Rect.crossOrigin true ⟨7, 1, 40, 30⟩ :=
  ⟨by decide,
   (stretch_fills_cross_axis ⟨0, 0⟩ true (STRETCH ||| MIDDLE)
      [PaddingBlock.new 10 5, PaddingBlock.new 60 7] [⟨0, 0⟩, ⟨0, 0⟩] ⟨7, 1, 40, 30⟩
      (by decide)).2⟩


/-! ## Cross axis of the children of a measured panel -/

theorem patched_cross (vertical : Bool) (share : Int) (b : Block) (d : Dimensions) :
    (patched vertical share b d).cross vertical = d.cross vertical := by
  cases vertical <;> simp [patched, Dimensions.cross, cross_axis]

/-- The offset the cross-axis chain adds when `STRETCH` is not set. -/
theorem childRect_cross (vertical : Bool) (align : Nat) (rect : Rect) (d : Dimensions)
    (x y : Int) (hs : align &&& STRETCH ≠ STRETCH) :
    (PanelBlock.childRect vertical align rect d x y).crossSize vertical = d.cross vertical
      ∧ (PanelBlock.childRect vertical align rect d x y).crossOrigin vertical
          = cross_axis vertical x y
            + (if align &&& RIGHT = RIGHT then rect.crossSize vertical - d.cross vertical
               else if align &&& MIDDLE = MIDDLE then
                 Int.tdiv (rect.crossSize vertical - d.cross vertical) 2
               else 0) := by
  unfold PanelBlock.childRect
  simp only [if_neg hs]
  cases vertical <;> split_ifs <;>
    simp [Rect.crossSize, Rect.crossOrigin, Dimensions.cross, cross_axis, set_cross_axis]

theorem rectsFrom_getElem? (vertical : Bool) (align : Nat) (rect : Rect) (pad : Int)
    (ds : List Dimensions) :
    ∀ (i : Nat) (d : Dimensions) (x0 y0 : Int), ds[i]? = some d →
      ∃ x y, (rectsFrom vertical align rect pad ds x0 y0)[i]?
          = some (PanelBlock.childRect vertical align rect d x y)
        ∧ cross_axis vertical x y = cross_axis vertical x0 y0 := by
  induction ds with
  | nil => intro i d x0 y0 h; simp at h
  | cons d0 ds ih =>
      intro i d x0 y0 h
      cases i with
      | zero =>
          simp only [List.getElem?_cons_zero, Option.some.injEq] at h
          exact ⟨x0, y0, by simp [rectsFrom, h], rfl⟩
      | succ j =>
          simp only [List.getElem?_cons_succ] at h
          obtain ⟨x, y, hget, hcross⟩ := ih j d _ _ h
          refine ⟨x, y, by simpa [rectsFrom] using hget, ?_⟩
          rw [hcross, cross_axis_set_main_axis]

/-- Child `i` of a panel without `STRETCH`, rendered right after `measure`:
cross-axis size and origin of its rectangle. -/
theorem measured_child_cross (m : Dimensions) (vertical : Bool) (align : Nat) (bs : List Block)
    (ds : List Dimensions) (rect : Rect) (hlen : ds.length = bs.length)
    (hs : align &&& STRETCH ≠ STRETCH) (i : Nat) (b : Block) (hb : bs[i]? = some b) :
    ∃ r, ((measuredPanel m vertical align bs ds).childRects rect)[i]? = some r
      ∧ r.crossSize vertical = b.measuredSize.cross vertical
      ∧ r.crossOrigin vertical
          = rect.crossOrigin vertical
            + (if align &&& RIGHT = RIGHT then
                 rect.crossSize vertical - b.measuredSize.cross vertical
               else if align &&& MIDDLE = MIDDLE then
                 Int.tdiv (rect.crossSize vertical - b.measuredSize.cross vertical) 2
               else 0) := by
  have hrects := childRects_measured m vertical align bs ds rect hlen
  obtain ⟨x, y, hget, hcross⟩ := rectsFrom_getElem? vertical align rect
    (PanelBlock.flowParams (Block.measure (.panel m vertical align bs ds)).1
      vertical align bs rect).flowPadding
    (bs.map (fun b => patched vertical
      (PanelBlock.flowParams (Block.measure (.panel m vertical align bs ds)).1
        vertical align bs rect).spacePerExpandableBlock b b.measuredSize))
    i _ _ _ (by rw [List.getElem?_map, hb]; rfl)
  rw [← hrects] at hget
  rw [cross_axis_set_main_axis] at hcross
  obtain ⟨h1, h2⟩ := childRect_cross vertical align rect
    (patched vertical
      (PanelBlock.flowParams (Block.measure (.panel m vertical align bs ds)).1
        vertical align bs rect).spacePerExpandableBlock b b.measuredSize) x y hs
  refine ⟨_, hget, ?_, ?_⟩
  · rw [h1, patched_cross]
  · rw [h2, patched_cross, hcross]; rfl

/-! ## The divisions never fault -/

theorem checkedDiv_of_ne (a b : Int) (hb : b ≠ 0) : checkedDiv a b = some (Int.tdiv a b) := by
  simp [checkedDiv, hb]

theorem flowParamsChecked_eq (d : Dimensions) (vertical : Bool) (align : Nat) (bs : List Block)
    (rect : Rect) :
    PanelBlock.flowParamsChecked d vertical align bs rect
      = some (PanelBlock.flowParams d vertical align bs rect) := by
  unfold PanelBlock.flowParamsChecked PanelBlock.flowParams
  by_cases hk : bs.countP Block.can_expand > 0
  · have hk2 : ((bs.countP Block.can_expand : Nat) : Int) ≠ 0 := by
      exact_mod_cast (Nat.pos_iff_ne_zero.mp hk)
    simp [hk, checkedDiv_of_ne _ _ hk2]
  · simp only [hk, if_false, Option.some_bind]
    have h2 : checkedDiv (main_axis vertical rect.width rect.height
        - main_axis vertical d.width d.height) 2
        = some (Int.tdiv (main_axis vertical rect.width rect.height
          - main_axis vertical d.width d.height) 2) := checkedDiv_of_ne _ _ (by decide)
    by_cases hn : bs.length > 1
    · have hn2 : ((bs.length - 1 : Nat) : Int) ≠ 0 := by
        have : bs.length - 1 ≠ 0 := by omega
        exact_mod_cast this
      simp only [hn, if_true, h2, checkedDiv_of_ne _ _ hn2, Option.some_bind]
      split_ifs <;> rfl
    · simp only [hn, if_false, h2, Option.some_bind]
      split_ifs <;> rfl

theorem childRectChecked_eq (vertical : Bool) (align : Nat) (rect : Rect) (d : Dimensions)
    (x y : Int) :
    PanelBlock.childRectChecked vertical align rect d x y
      = some (PanelBlock.childRect vertical align rect d x y) := by
  unfold PanelBlock.childRectChecked PanelBlock.childRect
  simp only [checkedDiv_of_ne _ 2 (by decide), Option.some_bind]
  split_ifs <;> rfl

/-! ## What the measure loops store -/

theorem setFrom_set_comm (vs : List Dimensions) :
    ∀ (i j : Nat) (v : Dimensions) (ds : List Dimensions), j < i →
      (setFrom i vs ds).set j v = setFrom i vs (ds.set j v) := by
  induction vs with
  | nil => intro i j v ds _; rfl
  | cons w ws ih =>
      intro i j v ds hj
      simp only [setFrom]
      rw [ih (i + 1) j v _ (by omega), List.set_comm w v ds (by omega)]

theorem setFrom_idem (vs : List Dimensions) :
    ∀ (i : Nat) (ds : List Dimensions), setFrom i vs (setFrom i vs ds) = setFrom i vs ds := by
  induction vs with
  | nil => intro i ds; rfl
  | cons w ws ih =>
      intro i ds
      simp only [setFrom]
      rw [setFrom_set_comm ws (i + 1) i w _ (by omega), List.set_set, ih]

theorem measureLoop_dims_setFrom (vertical : Bool) (bs : List Block) :
    ∀ (i : Nat) (ds : List Dimensions) (w h : Int),
      (PanelBlock.measureLoop vertical bs i ds w h).blockDimensions
        = setFrom i (bs.map Block.measuredSize) ds := by
  induction bs with
  | nil => intro i ds w h; rfl
  | cons b rest ih =>
      intro i ds w h
      simp only [PanelBlock.measureLoop, List.map_cons, setFrom, ih]
      rfl

theorem measureLoop_size_congr (vertical : Bool) (bs1 : List Block) :
    ∀ (bs2 : List Block), bs1.map Block.measuredSize = bs2.map Block.measuredSize →
      ∀ (i i2 : Nat) (ds ds2 : List Dimensions) (w h : Int),
        (PanelBlock.measureLoop vertical bs1 i ds w h).width
            = (PanelBlock.measureLoop vertical bs2 i2 ds2 w h).width
          ∧ (PanelBlock.measureLoop vertical bs1 i ds w h).height
            = (PanelBlock.measureLoop vertical bs2 i2 ds2 w h).height := by
  induction bs1 with
  | nil =>
      intro bs2 h
      cases bs2 with
      | nil => intro i i2 ds ds2 w h; exact ⟨rfl, rfl⟩
      | cons b2 r2 => simp at h
  | cons b1 r1 ih =>
      intro bs2 h
      cases bs2 with
      | nil => simp at h
      | cons b2 r2 =>
          simp only [List.map_cons, List.cons.injEq] at h
          obtain ⟨hb, hr⟩ := h
          intro i i2 ds ds2 w h
          simp only [Block.measuredSize] at hb
          simp only [PanelBlock.measureLoop, hb]
          exact ih r2 hr _ _ _ _ _ _

theorem textRow_measureLoop_dims (bs : List TextBlock) :
    ∀ (i : Nat) (acc : TextRowAcc),
      (TextRowBlock.measureLoop bs i acc).blockDimensions
        = setFrom i (bs.map TextBlock.rowDimensions) acc.blockDimensions := by
  induction bs with
  | nil => intro i acc; rfl
  | cons b rest ih =>
      intro i acc
      simp only [TextRowBlock.measureLoop, List.map_cons, setFrom, ih]
      rfl

theorem textRow_measureLoop_width (bs : List TextBlock) :
    ∀ (i : Nat) (acc : TextRowAcc),
      (TextRowBlock.measureLoop bs i acc).width
        = acc.width + (bs.map TextBlock.advance).sum := by
  induction bs with
  | nil => intro i acc; simp [TextRowBlock.measureLoop]
  | cons b rest ih =>
      intro i acc
      simp only [TextRowBlock.measureLoop, List.map_cons, List.sum_cons, ih,
        TextBlock.advance]
      ring

theorem textRow_measureLoop_above (bs : List TextBlock) :
    ∀ (i : Nat) (acc : TextRowAcc),
      (TextRowBlock.measureLoop bs i acc).max_height_above
        = (bs.map TextBlock.ascent).foldl max acc.max_height_above := by
  induction bs with
  | nil => intro i acc; rfl
  | cons b rest ih =>
      intro i acc
      simp only [TextRowBlock.measureLoop, List.map_cons, List.foldl_cons, ih]
      rfl

theorem textRow_measureLoop_below (bs : List TextBlock) :
    ∀ (i : Nat) (acc : TextRowAcc),
      (TextRowBlock.measureLoop bs i acc).max_height_below
        = (bs.map TextBlock.descent).foldl max acc.max_height_below := by
  induction bs with
  | nil => intro i acc; rfl
  | cons b rest ih =>
      intro i acc
      simp only [TextRowBlock.measureLoop, List.map_cons, List.foldl_cons, ih]
      rfl

theorem textRow_measureLoop_baseline (bs : List TextBlock) :
    ∀ (i : Nat) (acc : TextRowAcc),
      (TextRowBlock.measureLoop bs i acc).max_baseline
        = (bs.map TextBlock.ascent).foldl max acc.max_baseline := by
  induction bs with
  | nil => intro i acc; rfl
  | cons b rest ih =>
      intro i acc
      simp only [TextRowBlock.measureLoop, List.map_cons, List.foldl_cons, ih]
      rfl

/-- What `measure` returns and leaves on a text row. -/
theorem textRow_measure_eq (m : Dimensions) (bs : List TextBlock) (ds : List Dimensions)
    (mb : Int) :
    Block.measure (.textRow m bs ds mb)
      = (⟨(bs.map TextBlock.advance).sum,
          (bs.map TextBlock.ascent).foldl max 0 + (bs.map TextBlock.descent).foldl max 0⟩,
         .textRow ⟨(bs.map TextBlock.advance).sum,
            (bs.map TextBlock.ascent).foldl max 0 + (bs.map TextBlock.descent).foldl max 0⟩
          bs (setFrom 0 (bs.map TextBlock.rowDimensions) ds)
          ((bs.map TextBlock.ascent).foldl max 0)) := by
  simp only [Block.measure, textRow_measureLoop_dims, textRow_measureLoop_width,
    textRow_measureLoop_above, textRow_measureLoop_below, textRow_measureLoop_baseline,
    zero_add]

/-! ## A second measure -/

theorem textRow_measure_measure (m : Dimensions) (bs : List TextBlock) (ds : List Dimensions)
    (mb : Int) :
    Block.measure (Block.measure (.textRow m bs ds mb)).2
      = Block.measure (.textRow m bs ds mb) := by
  rw [textRow_measure_eq m bs ds mb]
  simp only
  rw [textRow_measure_eq, setFrom_idem]

theorem panel_measure_measure (m : Dimensions) (vertical : Bool) (align : Nat)
    (bs : List Block) (ds : List Dimensions)
    (hbs : ∀ b ∈ bs, Block.measure (Block.measure b).2 = Block.measure b) :
    Block.measure (Block.measure (.panel m vertical align bs ds)).2
      = Block.measure (.panel m vertical align bs ds) := by
  have hsizes : (bs.map (fun b => (Block.measure b).2)).map Block.measuredSize
      = bs.map Block.measuredSize := by
    rw [List.map_map]
    apply List.map_congr_left
    intro b hb
    simp only [Function.comp, Block.measuredSize, hbs b hb]
  have hblocks : (bs.map (fun b => (Block.measure b).2)).map (fun b => (Block.measure b).2)
      = bs.map (fun b => (Block.measure b).2) := by
    rw [List.map_map]
    apply List.map_congr_left
    intro b hb
    simp only [Function.comp, hbs b hb]
  have hsz := measureLoop_size_congr vertical (bs.map (fun b => (Block.measure b).2)) bs hsizes
    0 0 (setFrom 0 (bs.map Block.measuredSize) ds) ds 0 0
  simp only [Block.measure, measureLoop_blocks, measureLoop_dims_setFrom, hsizes, hblocks,
    setFrom_idem, hsz.1, hsz.2]

mutual
theorem measure_measure : ∀ b : Block,
    Block.measure (Block.measure b).2 = Block.measure b
  | .text _ => rfl
  | .textRow m bs ds mb => textRow_measure_measure m bs ds mb
  | .padding _ _ _ => rfl
  | .horizontalLine _ _ _ _ => rfl
  | .expand _ inner => by
      have ih := measure_measure inner
      simp only [Block.measure, ih]
  | .panel m vertical align bs ds =>
      panel_measure_measure m vertical align bs ds (measure_measure_all bs)
  | .debug _ _ inner => by
      have ih := measure_measure inner
      simp only [Block.measure, ih]
theorem measure_measure_all : ∀ bs : List Block,
    ∀ b ∈ bs, Block.measure (Block.measure b).2 = Block.measure b
  | [] => fun _ h => absurd h (List.not_mem_nil _)
  | b0 :: rest => fun b h => by
      rcases List.mem_cons.mp h with h1 | h1
      · rw [h1]; exact measure_measure b0
      · exact measure_measure_all rest b h1
end

/-! ## Text rows -/

theorem foldl_max_isGreatest_of_nonneg (cs : List Int) (h : ∃ c ∈ cs, 0 ≤ c) :
    IsGreatest {c | c ∈ cs} (cs.foldl max 0) := by
  obtain ⟨hmem, hub⟩ := foldl_max_isGreatest cs 0
  obtain ⟨c, hc, hpos⟩ := h
  refine ⟨?_, fun x hx => hub (Or.inr hx)⟩
  rcases hmem with h0 | hin
  · have hle : c ≤ 0 := by
      have := hub (Or.inr hc)
      rwa [h0] at this
    have heq : c = 0 := le_antisymm hle hpos
    show cs.foldl max 0 ∈ cs
    rw [h0, ← heq]
    exact hc
  · exact hin

theorem setFrom_mid (vs : List Dimensions) :
    ∀ (i : Nat) (pre mid post : List Dimensions), pre.length = i → mid.length = vs.length →
      setFrom i vs (pre ++ mid ++ post) = pre ++ vs ++ post := by
  induction vs with
  | nil =>
      intro i pre mid post _ hm
      have : mid = [] := List.length_eq_zero.mp (by simpa using hm)
      simp [setFrom, this]
  | cons v vs ih =>
      intro i pre mid post hp hm
      cases mid with
      | nil => simp at hm
      | cons d mid2 =>
          subst hp
          have := ih (pre.length + 1) (pre ++ [v]) mid2 post (by simp) (by simpa using hm)
          simp only [List.append_assoc, List.singleton_append, List.cons_append,
            List.nil_append] at this ⊢
          simp only [setFrom, set_append_mid]
          simpa only [List.append_assoc, List.singleton_append, List.cons_append,
            List.nil_append] using this

theorem setFrom_full (vs ds : List Dimensions) (h : ds.length = vs.length) :
    setFrom 0 vs ds = vs := by
  have := setFrom_mid vs 0 [] ds [] rfl h
  simpa using this

theorem textRow_renderLoop_length (ds : List Dimensions) (y : Int) (bs : List TextBlock) :
    ∀ (i : Nat) (x : Int), (TextRowBlock.renderLoop ds y bs i x).length = bs.length := by
  induction bs with
  | nil => intro i x; rfl
  | cons b rest ih => intro i x; simp [TextRowBlock.renderLoop, ih]

theorem textRow_renderLoop_getElem? (post : List Dimensions) (y : Int) (bs : List TextBlock) :
    ∀ (i : Nat) (pre mid : List Dimensions) (x : Int),
      pre.length = i → mid.length = bs.length →
      ∀ (j : Nat) (b : TextBlock), bs[j]? = some b →
        (TextRowBlock.renderLoop (pre ++ mid ++ post) y bs i x)[j]?
          = some (.print_aligned (x + ((mid.take j).map Dimensions.width).sum) y
              b.desc.font .BASELINE_LEFT b.desc.text) := by
  induction bs with
  | nil => intro i pre mid x _ _ j b hb; simp at hb
  | cons b0 rest ih =>
      intro i pre mid x hp hm j b hb
      cases mid with
      | nil => simp at hm
      | cons d mid2 =>
          subst hp
          cases j with
          | zero =>
              simp only [List.getElem?_cons_zero, Option.some.injEq] at hb
              simp [TextRowBlock.renderLoop, hb]
          | succ k =>
              simp only [List.getElem?_cons_succ] at hb
              have := ih (pre.length + 1) (pre ++ [d]) mid2 (x + d.width) (by simp)
                (by simpa using hm) k b hb
              simp only [List.append_assoc, List.singleton_append, List.cons_append,
                List.nil_append] at this ⊢
              simp only [TextRowBlock.renderLoop, getD_append_mid, List.getElem?_cons_succ,
                this, List.take_succ_cons, List.map_cons, List.sum_cons, Option.some.injEq]
              congr 1
              ring

/-! ## Containment of the spans -/

theorem spansFrom_length (pad : Int) (ms : List Int) :
    ∀ c : Int, (spansFrom pad ms c).length = ms.length := by
  induction ms with
  | nil => intro c; rfl
  | cons m ms ih => intro c; simp [spansFrom, ih]

theorem spansFrom_eq_of_getElem? (pad : Int) (ms : List Int) (c : Int) (i : Nat) (s : Int × Int)
    (h : (spansFrom pad ms c)[i]? = some s) :
    ∃ m, ms[i]? = some m ∧ s = (c + (ms.take i).sum + i * pad, m) := by
  obtain ⟨hi, _⟩ := List.getElem?_eq_some.mp h
  rw [spansFrom_length] at hi
  have hm : ms[i]? = some ms[i] := List.getElem?_eq_getElem hi
  have := spansFrom_getElem? pad ms i c _ hm
  rw [h] at this
  exact ⟨ms[i], hm, Option.some.inj this⟩

theorem sum_take_nonneg (ms : List Int) (hms : ∀ x ∈ ms, 0 ≤ x) (i : Nat) :
    0 ≤ (ms.take i).sum :=
  List.sum_nonneg fun x hx => hms x (List.mem_of_mem_take hx)

theorem sum_take_succ_le (ms : List Int) (hms : ∀ x ∈ ms, 0 ≤ x) :
    ∀ (i j : Nat) (m : Int), ms[i]? = some m → i < j →
      (ms.take i).sum + m ≤ (ms.take j).sum := by
  induction ms with
  | nil => intro i j m h; simp at h
  | cons m0 ms ih =>
      intro i j m h hij
      have hms2 : ∀ x ∈ ms, 0 ≤ x := fun x hx => hms x (List.mem_cons_of_mem _ hx)
      cases j with
      | zero => omega
      | succ j2 =>
          cases i with
          | zero =>
              simp only [List.getElem?_cons_zero, Option.some.injEq] at h
              have := sum_take_nonneg ms hms2 j2
              simp only [List.take_zero, List.sum_nil, List.take_succ_cons, List.sum_cons, h]
              linarith
          | succ i2 =>
              simp only [List.getElem?_cons_succ] at h
              have := ih hms2 i2 j2 m h (by omega)
              simp only [List.take_succ_cons, List.sum_cons]
              linarith

theorem sum_take_succ_le_sum (ms : List Int) (hms : ∀ x ∈ ms, 0 ≤ x) (i : Nat) (m : Int)
    (h : ms[i]? = some m) : (ms.take i).sum + m ≤ ms.sum := by
  obtain ⟨hi, _⟩ := List.getElem?_eq_some.mp h
  have := sum_take_succ_le ms hms i ms.length m h hi
  rwa [List.take_length] at this

theorem spansFrom_contained (pad : Int) (ms : List Int) (c hi : Int) (hpad : 0 ≤ pad)
    (hms : ∀ x ∈ ms, 0 ≤ x)
    (hend : c + ms.sum + ((ms.length - 1 : Nat) : Int) * pad ≤ hi)
    (i : Nat) (s : Int × Int) (h : (spansFrom pad ms c)[i]? = some s) :
    c ≤ s.1 ∧ 0 ≤ s.2 ∧ s.1 + s.2 ≤ hi := by
  obtain ⟨m, hm, rfl⟩ := spansFrom_eq_of_getElem? pad ms c i s h
  obtain ⟨hlt, _⟩ := List.getElem?_eq_some.mp hm
  have h1 := sum_take_nonneg ms hms i
  have h2 := sum_take_succ_le_sum ms hms i m hm
  have h3 : 0 ≤ m := hms m (List.getElem?_mem hm)
  have h4 : (0 : Int) ≤ (i : Int) * pad := mul_nonneg (by exact_mod_cast Nat.zero_le i) hpad
  have h5 : (i : Int) * pad ≤ ((ms.length - 1 : Nat) : Int) * pad := by
    apply mul_le_mul_of_nonneg_right _ hpad
    have : i ≤ ms.length - 1 := by omega
    exact_mod_cast this
  refine ⟨?_, h3, ?_⟩
  · show c ≤ c + (ms.take i).sum + i * pad
    linarith
  · show c + (ms.take i).sum + i * pad + m ≤ hi
    linarith

theorem spansFrom_ordered (pad : Int) (ms : List Int) (c : Int) (hpad : 0 ≤ pad)
    (hms : ∀ x ∈ ms, 0 ≤ x) (i j : Nat) (si sj : Int × Int) (hij : i < j)
    (hi : (spansFrom pad ms c)[i]? = some si) (hj : (spansFrom pad ms c)[j]? = some sj) :
    si.1 + si.2 ≤ sj.1 := by
  obtain ⟨mi, hmi, rfl⟩ := spansFrom_eq_of_getElem? pad ms c i si hi
  obtain ⟨mj, _, rfl⟩ := spansFrom_eq_of_getElem? pad ms c j sj hj
  have h1 := sum_take_succ_le ms hms i j mi hmi hij
  have h2 : (i : Int) * pad ≤ (j : Int) * pad := by
    apply mul_le_mul_of_nonneg_right _ hpad
    exact_mod_cast (le_of_lt hij)
  show c + (ms.take i).sum + i * pad + mi ≤ c + (ms.take j).sum + j * pad
  linarith

theorem mul_tdiv_le (L k : Int) (hL : 0 ≤ L) (hk : 0 < k) :
    0 ≤ Int.tdiv L k ∧ k * Int.tdiv L k ≤ L := by
  rw [Int.tdiv_eq_ediv hL (le_of_lt hk)]
  have h1 := Int.emod_add_ediv L k
  have h2 := Int.emod_nonneg L (ne_of_gt hk)
  have h3 : 0 ≤ L / k := Int.ediv_nonneg hL (le_of_lt hk)
  exact ⟨h3, by linarith⟩

/-- With a leftover that is not negative, offset, padding and share are not
negative, and offset, total growth and total padding fit in the leftover. -/
theorem flowParams_bounds (d : Dimensions) (vertical : Bool) (align : Nat) (bs : List Block)
    (rect : Rect) (hL : 0 ≤ leftover vertical d rect) :
    0 ≤ (PanelBlock.flowParams d vertical align bs rect).startOffset
      ∧ 0 ≤ (PanelBlock.flowParams d vertical align bs rect).flowPadding
      ∧ 0 ≤ (PanelBlock.flowParams d vertical align bs rect).spacePerExpandableBlock
      ∧ (PanelBlock.flowParams d vertical align bs rect).startOffset
          + (bs.countP Block.can_expand : Nat)
            * (PanelBlock.flowParams d vertical align bs rect).spacePerExpandableBlock
          + ((bs.length - 1 : Nat) : Int)
            * (PanelBlock.flowParams d vertical align bs rect).flowPadding
          ≤ leftover vertical d rect := by
  by_cases hk : 0 < bs.countP Block.can_expand
  · have hk2 : (0 : Int) < (bs.countP Block.can_expand : Nat) := by exact_mod_cast hk
    obtain ⟨h1, h2⟩ := mul_tdiv_le _ _ hL hk2
    rw [flowParams_expandable d vertical align bs rect hk]
    refine ⟨le_refl _, le_refl _, h1, ?_⟩
    simp only [zero_add, mul_zero, add_zero]
    exact h2
  · have hk0 : bs.countP Block.can_expand = 0 := by omega
    by_cases hpos : 0 < leftover vertical d rect
    · by_cases hs : align &&& START = START
      · rw [flowParams_start d vertical align bs rect hk0 hs]
        simp [hL]
      · by_cases hc : align &&& CENTER = CENTER
        · obtain ⟨h1, h2⟩ := mul_tdiv_le _ 2 hL (by decide)
          rw [flowParams_center d vertical align bs rect hk0 hpos hs hc]
          refine ⟨h1, le_refl _, le_refl _, ?_⟩
          simp only [hk0, Nat.cast_zero, zero_mul, mul_zero, add_zero]
          linarith
        · by_cases he : align &&& END = END
          · rw [flowParams_end d vertical align bs rect hk0 hpos hs hc he]
            simp [hL, hk0]
          · rw [flowParams_space_between d vertical align bs rect hk0 hpos hs hc he]
            by_cases hn : bs.length > 1
            · have hn2 : (0 : Int) < ((bs.length - 1 : Nat) : Int) := by
                have : 0 < bs.length - 1 := by omega
                exact_mod_cast this
              obtain ⟨h1, h2⟩ := mul_tdiv_le _ _ hL hn2
              simp only [hn, if_true, hk0, Nat.cast_zero, zero_mul, zero_add]
              exact ⟨le_refl _, h1, le_refl _, h2⟩
            · have hn0 : bs.length - 1 = 0 := by omega
              obtain ⟨h1, _⟩ := mul_tdiv_le _ 2 hL (by decide)
              simp only [hn, if_false, hk0, hn0, Nat.cast_zero, zero_mul, zero_add, add_zero]
              exact ⟨le_refl _, h1, le_refl _, hL⟩
    · rw [flowParams_no_leftover d vertical align bs rect hk0 (by omega)]
      simp [hL]

/-! ## Panel: priority among the cross-axis bits -/

/-- C11. A panel whose `Align` does not have the `STRETCH` bit is measured and
then rendered.  Every child is handed a rectangle with its measured cross-axis
size.  If the `BOTTOM`/`RIGHT` bit is set (with or without `MIDDLE`), the
rectangle starts at the panel's cross-axis origin plus allocated cross-axis
size minus the child's measured cross-axis size, so that its far edge is the
far edge of the panel; otherwise, if `MIDDLE` is set, it starts at the origin
plus half that difference; otherwise at the origin. -/
theorem cross_axis_bit_priority (m : Dimensions) (vertical : Bool) (align : Nat)
    (blocks : List Block) (ds : List Dimensions) (rect : Rect)
    (hlen : ds.length = blocks.length) (hs : align &&& STRETCH ≠ STRETCH)
    (i : Nat) (b : Block) (hb : blocks[i]? = some b) :
    ∃ r, ((Block.measure (.panel m vertical align blocks ds)).2.childRects rect)[i]? = some r
      ∧ r.crossSize vertical = (Block.measure b).1.cross vertical
      ∧ (align &&& RIGHT = RIGHT →
          r.crossOrigin vertical
              = rect.crossOrigin vertical
                + (rect.crossSize vertical - (Block.measure b).1.cross vertical)
            ∧ r.crossOrigin vertical + r.crossSize vertical
              = rect.crossOrigin vertical + rect.crossSize vertical)
      ∧ (align &&& RIGHT ≠ RIGHT → align &&& MIDDLE = MIDDLE →
          r.crossOrigin vertical
            = rect.crossOrigin vertical
              + Int.tdiv (rect.crossSize vertical - (Block.measure b).1.cross vertical) 2)
      ∧ (align &&& RIGHT ≠ RIGHT → align &&& MIDDLE ≠ MIDDLE →
          r.crossOrigin vertical = rect.crossOrigin vertical) := by
  obtain ⟨r, hr, hsize, horigin⟩ :=
    measured_child_cross m vertical align blocks ds rect hlen hs i b hb
  simp only [Block.measuredSize] at hsize horigin
  refine ⟨r, hr, hsize, ?_, ?_, ?_⟩
  · intro hright
    rw [if_pos hright] at horigin
    refine ⟨horigin, ?_⟩
    rw [horigin, hsize]; ring
  · intro hright hmid
    rw [if_neg hright, if_pos hmid] at horigin
    exact horigin
  · intro hright hmid
    rw [if_neg hright, if_neg hmid, add_zero] at horigin
    exact horigin

/-- Witness for C11: a vertical `BOTTOM | MIDDLE` panel in a rectangle 40 wide
at x = 7 hands its 10-wide first child x = 37, flush with the far edge 47. -/
theorem cross_axis_bit_priority_witness :
    ((Block.measure (PanelBlock.new true (BOTTOM ||| MIDDLE)
        [PaddingBlock.new 10 5, PaddingBlock.new 60 7])).2.childRects ⟨7, 1, 40, 30⟩).map
        (fun r => (r.x, r.width)) = [(37, 10), (-13, 60)]
      ∧ ∃ r, ((Block.measure (.panel ⟨0, 0⟩ true (BOTTOM ||| MIDDLE)
          [PaddingBlock.new 10 5, PaddingBlock.new 60 7] [⟨0, 0⟩, ⟨0, 0⟩])).2.childRects
          ⟨7, 1, 40, 30⟩)[0]? = some r
        ∧ r.crossOrigin true + r.crossSize true = 7 + 40 := by
  refine ⟨by decide, ?_⟩
  obtain ⟨r, hr, _, hright, _⟩ := cross_axis_bit_priority ⟨0, 0⟩ true (BOTTOM ||| MIDDLE)
    [PaddingBlock.new 10 5, PaddingBlock.new 60 7] [⟨0, 0⟩, ⟨0, 0⟩] ⟨7, 1, 40, 30⟩ rfl
    (by decide) 0 (PaddingBlock.new 10 5) rfl
  exact ⟨r, hr, (hright (by decide)).2⟩

/-! ## Panel: overflow -/

/-- C12. A panel without expandable children is measured and then rendered
into a rectangle whose main-axis size is not larger than the measured one
(leftover `<= 0`), with any `Align`.  The start offset and the inter-item
padding are 0 and are computed without a division by zero; child `i` is handed
a rectangle that starts at the panel's main-axis origin plus the measured
main-axis sizes of the children before it, with its full measured main-axis
size, and that rectangle is computed without a division by zero. -/
theorem overflow_packs_from_origin (m : Dimensions) (vertical : Bool) (align : Nat)
    (blocks : List Block) (ds : List Dimensions) (rect : Rect)
    (hlen : ds.length = blocks.length) (hne : ∀ b ∈ blocks, b.can_expand = false)
    (hL : rect.mainSize vertical
      - (Block.measure (.panel m vertical align blocks ds)).1.main vertical ≤ 0)
    (i : Nat) (b : Block) (hb : blocks[i]? = some b) :
    PanelBlock.flowParamsChecked (Block.measure (.panel m vertical align blocks ds)).1 vertical
        align (blocks.map (fun c => (Block.measure c).2)) rect = some ⟨0, 0, 0⟩
      ∧ (∀ d x y, PanelBlock.childRectChecked vertical align rect d x y
            = some (PanelBlock.childRect vertical align rect d x y))
      ∧ ∃ r, ((Block.measure (.panel m vertical align blocks ds)).2.childRects rect)[i]? = some r
        ∧ r.mainOrigin vertical
            = rect.mainOrigin vertical
              + ((blocks.take i).map (fun c => (Block.measure c).1.main vertical)).sum
        ∧ r.mainSize vertical = (Block.measure b).1.main vertical := by
  have hk := countP_eq_zero_of_none blocks hne
  have hfp := flowParams_no_leftover (Block.measure (.panel m vertical align blocks ds)).1
    vertical align blocks rect hk hL
  refine ⟨by rw [flowParamsChecked_eq, flowParams_measure, hfp],
    childRectChecked_eq vertical align rect, ?_⟩
  obtain ⟨r, hr, ho, hsz⟩ :=
    measured_child_span_fixed m vertical align blocks ds rect hlen hne i b hb
  refine ⟨r, hr, ?_, hsz⟩
  simp only [panelSize] at ho
  rw [ho, hfp]
  simp [Block.measuredSize]

/-- Witness for C12: three 10-wide children under `CENTER` in a rectangle of
width 20 at x = 3 are handed x = 3, 13, 23 with their full width 10. -/
theorem overflow_packs_from_origin_witness :
    ((Block.measure (PanelBlock.new false CENTER
        [PaddingBlock.new 10 5, PaddingBlock.new 10 7, PaddingBlock.new 10 2])).2.childRects
        ⟨3, 0, 20, 9⟩).map (Rect.mainSpan false) = [(3, 10), (13, 10), (23, 10)]
      ∧ ∃ r, ((Block.measure (.panel ⟨0, 0⟩ false CENTER
          [PaddingBlock.new 10 5, PaddingBlock.new 10 7, PaddingBlock.new 10 2]
          [⟨0, 0⟩, ⟨0, 0⟩, ⟨0, 0⟩])).2.childRects ⟨3, 0, 20, 9⟩)[2]? = some r
        ∧ r.mainOrigin false = 3 + (10 + 10) ∧ r.mainSize false = 10 := by
  refine ⟨by decide, ?_⟩
  obtain ⟨r, hr, ho, hsz⟩ := (overflow_packs_from_origin ⟨0, 0⟩ false CENTER
    [PaddingBlock.new 10 5, PaddingBlock.new 10 7, PaddingBlock.new 10 2]
    [⟨0, 0⟩, ⟨0, 0⟩, ⟨0, 0⟩] ⟨3, 0, 20, 9⟩ rfl (by decide) (by decide) 2
    (PaddingBlock.new 10 2) rfl).2.2
  exact ⟨r, hr, ho.trans (by decide), hsz.trans (by decide)⟩

/-! ## Panel: `CENTER` and `END` -/

/-- C17. A panel without expandable children, whose `Align` does not have the
`START` bit, is measured and then rendered into a rectangle that leaves a
positive leftover `L`.  With the `CENTER` bit set, child `i` is handed a
rectangle that starts at the panel's main-axis origin plus `L / 2` plus the
measured main-axis sizes of the children before it; with `END` set and `CENTER`
not, at the origin plus `L` plus those sizes, and the far edge of the last
child's rectangle is the far main-axis edge of the allocated rectangle.  In both
cases the child has its measured main-axis size, so nothing separates two
neighbours. -/
theorem center_and_end_offsets (m : Dimensions) (vertical : Bool) (align : Nat)
    (blocks : List Block) (ds : List Dimensions) (rect : Rect)
    (hlen : ds.length = blocks.length) (hne : ∀ b ∈ blocks, b.can_expand = false)
    (hs : align &&& START ≠ START)
    (hL : 0 < rect.mainSize vertical
      - (Block.measure (.panel m vertical align blocks ds)).1.main vertical)
    (i : Nat) (b : Block) (hb : blocks[i]? = some b) :
    ∃ r, ((Block.measure (.panel m vertical align blocks ds)).2.childRects rect)[i]? = some r
      ∧ r.mainSize vertical = (Block.measure b).1.main vertical
      ∧ (align &&& CENTER = CENTER →
          r.mainOrigin vertical
            = rect.mainOrigin vertical
              + Int.tdiv (rect.mainSize vertical
                  - (Block.measure (.panel m vertical align blocks ds)).1.main vertical) 2
              + ((blocks.take i).map (fun c => (Block.measure c).1.main vertical)).sum)
      ∧ (align &&& CENTER ≠ CENTER → align &&& END = END →
          r.mainOrigin vertical
              = rect.mainOrigin vertical
                + (rect.mainSize vertical
                    - (Block.measure (.panel m vertical align blocks ds)).1.main vertical)
                + ((blocks.take i).map (fun c => (Block.measure c).1.main vertical)).sum
            ∧ (i + 1 = blocks.length →
                r.mainOrigin vertical + r.mainSize vertical
                  = rect.mainOrigin vertical + rect.mainSize vertical)) := by
  have hk := countP_eq_zero_of_none blocks hne
  have hL1 : 0 < leftover vertical (Block.measure (.panel m vertical align blocks ds)).1 rect :=
    hL
  obtain ⟨r, hr, ho, hsz⟩ :=
    measured_child_span_fixed m vertical align blocks ds rect hlen hne i b hb
  simp only [panelSize, Block.measuredSize] at ho hsz
  refine ⟨r, hr, hsz, ?_, ?_⟩
  · intro hc
    rw [ho, flowParams_center _ _ _ _ _ hk hL1 hs hc]
    simp [leftover]
  · intro hc he
    have ho2 : r.mainOrigin vertical
        = rect.mainOrigin vertical
          + (rect.mainSize vertical
              - (Block.measure (.panel m vertical align blocks ds)).1.main vertical)
          + ((blocks.take i).map (fun c => (Block.measure c).1.main vertical)).sum := by
      rw [ho, flowParams_end _ _ _ _ _ hk hL1 hs hc he]
      simp [leftover]
    refine ⟨ho2, ?_⟩
    intro hlast
    have hmain := panelSize_main m vertical align blocks ds
    simp only [panelSize, Block.measuredSize] at hmain
    have htake : blocks.take i ++ [b] = blocks := by
      have h1 : blocks.take (i + 1) = blocks.take i ++ [b] := by
        rw [List.take_succ, hb]; rfl
      rw [← h1, hlast, List.take_length]
    have hsum : (blocks.map (fun c => (Block.measure c).1.main vertical)).sum
        = ((blocks.take i).map (fun c => (Block.measure c).1.main vertical)).sum
          + (Block.measure b).1.main vertical := by
      conv_lhs => rw [← htake]
      simp
    rw [ho2, hsz, hmain, hsum]
    ring

/-- Witness for C17: under `END`, three 10-wide children in a rectangle of
width 50 at x = 3 are handed x = 23, 33, 43; the last one ends at 53 = 3 + 50. -/
theorem center_and_end_offsets_witness :
    ((Block.measure (PanelBlock.new false END
        [PaddingBlock.new 10 5, PaddingBlock.new 10 7, PaddingBlock.new 10 2])).2.childRects
        ⟨3, 0, 50, 9⟩).map (Rect.mainSpan false) = [(23, 10), (33, 10), (43, 10)]
      ∧ ((Block.measure (PanelBlock.new false CENTER
          [PaddingBlock.new 10 5, PaddingBlock.new 10 7, PaddingBlock.new 10 2])).2.childRects
          ⟨3, 0, 50, 9⟩).map (Rect.mainSpan false) = [(13, 10), (23, 10), (33, 10)]
      ∧ ∃ r, ((Block.measure (.panel ⟨0, 0⟩ false END
          [PaddingBlock.new 10 5, PaddingBlock.new 10 7, PaddingBlock.new 10 2]
          [⟨0, 0⟩, ⟨0, 0⟩, ⟨0, 0⟩])).2.childRects ⟨3, 0, 50, 9⟩)[2]? = some r
        ∧ r.mainOrigin false + r.mainSize false = 3 + 50 := by
  refine ⟨by decide, by decide, ?_⟩
  obtain ⟨r, hr, _, _, hend⟩ := center_and_end_offsets ⟨0, 0⟩ false END
    [PaddingBlock.new 10 5, PaddingBlock.new 10 7, PaddingBlock.new 10 2]
    [⟨0, 0⟩, ⟨0, 0⟩, ⟨0, 0⟩] ⟨3, 0, 50, 9⟩ rfl (by decide) (by decide) (by decide) 2
    (PaddingBlock.new 10 2) rfl
  exact ⟨r, hr, (hend (by decide) (by decide)).2 rfl⟩

/-! ## Panel: a second render -/

/-- C13, the code at the failing input. A horizontal panel over a 10-wide
padding, an expandable 10-wide padding and another 10-wide padding is measured
once (stored child widths 10, 10, 10) and rendered into a rectangle of width
50.  The first render hands the children x = 0, 10, 40 and widths 10, 30, 10
and leaves the stored widths at 10, 30, 10; a second render into the same
rectangle, without a new measure, hands them x = 0, 10, 60 and widths
10, 50, 10.  The panel's own `_measured` is the same before and after. -/
theorem second_render_grows_again :
    (Block.measure (PanelBlock.new false STRETCH
        [PaddingBlock.new 10 5, ExpandBlock.new (PaddingBlock.new 10 7),
         PaddingBlock.new 10 2])).2.blockDimensions = [⟨10, 5⟩, ⟨10, 7⟩, ⟨10, 2⟩]
      ∧ ((Block.measure (PanelBlock.new false STRETCH
          [PaddingBlock.new 10 5, ExpandBlock.new (PaddingBlock.new 10 7),
           PaddingBlock.new 10 2])).2.childRects ⟨0, 0, 50, 9⟩)
          = [⟨0, 0, 10, 9⟩, ⟨10, 0, 30, 9⟩, ⟨40, 0, 10, 9⟩]
      ∧ (((Block.measure (PanelBlock.new false STRETCH
          [PaddingBlock.new 10 5, ExpandBlock.new (PaddingBlock.new 10 7),
           PaddingBlock.new 10 2])).2.render ⟨0, 0, 50, 9⟩).1.blockDimensions)
          = [⟨10, 5⟩, ⟨30, 7⟩, ⟨10, 2⟩]
      ∧ (((Block.measure (PanelBlock.new false STRETCH
          [PaddingBlock.new 10 5, ExpandBlock.new (PaddingBlock.new 10 7),
           PaddingBlock.new 10 2])).2.render ⟨0, 0, 50, 9⟩).1.childRects ⟨0, 0, 50, 9⟩)
          = [⟨0, 0, 10, 9⟩, ⟨10, 0, 50, 9⟩, ⟨60, 0, 10, 9⟩]
      ∧ ((Block.measure (PanelBlock.new false STRETCH
          [PaddingBlock.new 10 5, ExpandBlock.new (PaddingBlock.new 10 7),
           PaddingBlock.new 10 2])).2.render ⟨0, 0, 50, 9⟩).1.measured
          = (Block.measure (PanelBlock.new false STRETCH
              [PaddingBlock.new 10 5, ExpandBlock.new (PaddingBlock.new 10 7),
               PaddingBlock.new 10 2])).2.measured := by
  refine ⟨by decide, by decide, by decide, by decide, by decide⟩

/-! ## Measure twice -/

/-- C14. For every tree of text, text row, padding, horizontal line, expand,
panel and debug nodes (the fonts being fixed functions of the text), a second
`measure` on the tree the first one leaves returns the same `Dimensions` and
leaves the same tree, cached dimensions of every node included. -/
theorem measure_is_idempotent (b : Block) :
    Block.measure (Block.measure b).2 = Block.measure b :=
  measure_measure b

/-! ## Text row and text -/

/-- C15. For a text row whose children have ascents `a_i` (baseline offsets)
and descents `d_i` (height minus baseline offset), none negative, `measure`
returns the sum of the advance widths as width and `A + D` as height, and
records `A` as `_measureMaxBaseline`, where `A` is the greatest of 0 and the
`a_i` and `D` the greatest of 0 and the `d_i`; with at least one child, `A` is
the maximum of the `a_i` and `D` the maximum of the `d_i`. -/
theorem textRow_measure_sizes (m : Dimensions) (blocks : List TextBlock)
    (ds : List Dimensions) (mb : Int)
    (hnn : ∀ b ∈ blocks, 0 ≤ b.ascent ∧ 0 ≤ b.descent) :
    (Block.measure (.textRow m blocks ds mb)).1.width = (blocks.map TextBlock.advance).sum
      ∧ ∃ A D, (Block.measure (.textRow m blocks ds mb)).1.height = A + D
        ∧ (Block.measure (.textRow m blocks ds mb)).2.measureMaxBaseline = A
        ∧ IsGreatest {c | c = 0 ∨ c ∈ blocks.map TextBlock.ascent} A
        ∧ IsGreatest {c | c = 0 ∨ c ∈ blocks.map TextBlock.descent} D
        ∧ (blocks ≠ [] →
            IsGreatest {c | c ∈ blocks.map TextBlock.ascent} A
              ∧ IsGreatest {c | c ∈ blocks.map TextBlock.descent} D) := by
  rw [textRow_measure_eq]
  refine ⟨rfl, (blocks.map TextBlock.ascent).foldl max 0,
    (blocks.map TextBlock.descent).foldl max 0, rfl, rfl,
    foldl_max_isGreatest _ 0, foldl_max_isGreatest _ 0, ?_⟩
  intro hne
  obtain ⟨b, rest, rfl⟩ := List.exists_cons_of_ne_nil hne
  have hb := hnn b (List.mem_cons_self _ _)
  exact ⟨foldl_max_isGreatest_of_nonneg _ ⟨b.ascent, by simp, hb.1⟩,
    foldl_max_isGreatest_of_nonneg _ ⟨b.descent, by simp, hb.2⟩⟩

/-- Witness for C15: two children with (ascent, descent) = (10, 4) and (6, 8)
and advance widths 7 and 5 measure to width 12 and height 18, with recorded
baseline 10. -/
theorem textRow_measure_sizes_witness :
    (Block.measure (TextRowBlock.new
        [⟨⟨0, 0⟩, ⟨⟨fun _ => ⟨7, 0, 10, 14⟩⟩, "Hi"⟩⟩,
         ⟨⟨0, 0⟩, ⟨⟨fun _ => ⟨5, 0, 6, 14⟩⟩, "lo"⟩⟩])).1 = ⟨12, 18⟩
      ∧ (Block.measure (TextRowBlock.new
          [⟨⟨0, 0⟩, ⟨⟨fun _ => ⟨7, 0, 10, 14⟩⟩, "Hi"⟩⟩,
           ⟨⟨0, 0⟩, ⟨⟨fun _ => ⟨5, 0, 6, 14⟩⟩, "lo"⟩⟩])).2.measureMaxBaseline = 10
      ∧ (Block.measure (.textRow ⟨0, 0⟩
          [⟨⟨0, 0⟩, ⟨⟨fun _ => ⟨7, 0, 10, 14⟩⟩, "Hi"⟩⟩,
           ⟨⟨0, 0⟩, ⟨⟨fun _ => ⟨5, 0, 6, 14⟩⟩, "lo"⟩⟩] [⟨0, 0⟩, ⟨0, 0⟩] 0)).1.width
          = ([⟨⟨0, 0⟩, ⟨⟨fun _ => ⟨7, 0, 10, 14⟩⟩, "Hi"⟩⟩,
              ⟨⟨0, 0⟩, ⟨⟨fun _ => ⟨5, 0, 6, 14⟩⟩, "lo"⟩⟩].map TextBlock.advance).sum :=
  ⟨by decide, by decide,
   (textRow_measure_sizes ⟨0, 0⟩
      [⟨⟨0, 0⟩, ⟨⟨fun _ => ⟨7, 0, 10, 14⟩⟩, "Hi"⟩⟩,
       ⟨⟨0, 0⟩, ⟨⟨fun _ => ⟨5, 0, 6, 14⟩⟩, "lo"⟩⟩] [⟨0, 0⟩, ⟨0, 0⟩] 0
      (by
        intro b hb
        simp only [List.mem_cons, List.mem_singleton, List.not_mem_nil, or_false] at hb
        rcases hb with h | h <;> rw [h] <;> decide)).1⟩

/-- C16. A text row (with `_blockDimensions` as long as `_blocks`) is measured
and then rendered into `rect`.  It issues exactly one `BASELINE_LEFT` print per
child, in order; all have y = `rect.y + (rect.height - measured.height) / 2`
plus the recorded maximal baseline, and the print of child `i` has
x = `rect.x + (rect.width - measured.width) / 2` plus the measured widths of
the children before it. -/
theorem textRow_render_draws (m : Dimensions) (blocks : List TextBlock)
    (ds : List Dimensions) (mb : Int) (rect : Rect) (hlen : ds.length = blocks.length) :
    (((Block.measure (.textRow m blocks ds mb)).2.render rect).2).length = blocks.length
      ∧ ∀ (i : Nat) (b : TextBlock), blocks[i]? = some b →
          (((Block.measure (.textRow m blocks ds mb)).2.render rect).2)[i]?
            = some (DrawCmd.print_aligned
                (rect.x
                  + Int.tdiv (rect.width - (Block.measure (.textRow m blocks ds mb)).1.width) 2
                  + ((blocks.take i).map TextBlock.advance).sum)
                (rect.y
                  + Int.tdiv (rect.height - (Block.measure (.textRow m blocks ds mb)).1.height) 2
                  + (Block.measure (.textRow m blocks ds mb)).2.measureMaxBaseline)
                b.desc.font .BASELINE_LEFT b.desc.text) := by
  rw [textRow_measure_eq, setFrom_full _ _ (by simpa using hlen)]
  simp only [Block.render, TextRowBlock.do_render, Block.measureMaxBaseline]
  refine ⟨textRow_renderLoop_length _ _ _ _ _, ?_⟩
  intro i b hb
  have := textRow_renderLoop_getElem? [] (rect.y
      + Int.tdiv (rect.height - ((blocks.map TextBlock.ascent).foldl max 0
        + (blocks.map TextBlock.descent).foldl max 0)) 2
      + (blocks.map TextBlock.ascent).foldl max 0) blocks 0 []
    (blocks.map TextBlock.rowDimensions)
    (rect.x + Int.tdiv (rect.width - (blocks.map TextBlock.advance).sum) 2) rfl (by simp) i b hb
  simp only [List.nil_append, List.append_nil] at this
  rw [this, ← List.map_take, List.map_map]
  rfl

/-- Witness for C16: the row of C15 rendered into a rectangle 20 by 30 at
(1, 2) prints both children at y = 2 + 6 + 10, the second one 7 further right. -/
theorem textRow_render_draws_witness :
    (((Block.measure (.textRow ⟨0, 0⟩
        [⟨⟨0, 0⟩, ⟨⟨fun _ => ⟨7, 0, 10, 14⟩⟩, "Hi"⟩⟩,
         ⟨⟨0, 0⟩, ⟨⟨fun _ => ⟨5, 0, 6, 14⟩⟩, "lo"⟩⟩] [⟨0, 0⟩, ⟨0, 0⟩] 0)).2.render
        ⟨1, 2, 20, 30⟩).2)[1]?
      = some (DrawCmd.print_aligned (1 + 4 + 7) (2 + 6 + 10) ⟨fun _ => ⟨5, 0, 6, 14⟩⟩
          .BASELINE_LEFT "lo") :=
  (textRow_render_draws ⟨0, 0⟩
    [⟨⟨0, 0⟩, ⟨⟨fun _ => ⟨7, 0, 10, 14⟩⟩, "Hi"⟩⟩,
     ⟨⟨0, 0⟩, ⟨⟨fun _ => ⟨5, 0, 6, 14⟩⟩, "lo"⟩⟩] [⟨0, 0⟩, ⟨0, 0⟩] 0 ⟨1, 2, 20, 30⟩ rfl).2 1
    ⟨⟨0, 0⟩, ⟨⟨fun _ => ⟨5, 0, 6, 14⟩⟩, "lo"⟩⟩ rfl

/-- C18. A text node is measured and then rendered into `rect`.  It issues one
print, at x = `rect.x + (rect.width - measured.width) / 2` and
y = `rect.y + (rect.height - measured.height) / 2`; when the rectangle has
exactly the measured size, that is the origin of the rectangle. -/
theorem text_render_centres (b : TextBlock) (rect : Rect) :
    ((Block.measure (.text b)).2.render rect).2
        = [DrawCmd.print
            (rect.x + Int.tdiv (rect.width - (Block.measure (.text b)).1.width) 2)
            (rect.y + Int.tdiv (rect.height - (Block.measure (.text b)).1.height) 2)
            b.desc.font b.desc.text]
      ∧ (rect.width = (Block.measure (.text b)).1.width →
          rect.height = (Block.measure (.text b)).1.height →
          ((Block.measure (.text b)).2.render rect).2
            = [DrawCmd.print rect.x rect.y b.desc.font b.desc.text]) := by
  refine ⟨rfl, ?_⟩
  intro hw hh
  simp only [Block.measure, Block.render, TextBlock.do_render] at hw hh ⊢
  rw [hw, hh]
  simp

/-- Witness for C18: a text measured 20 by 14, rendered into the rectangle
20 by 14 at (5, 6), is printed at (5, 6). -/
theorem text_render_centres_witness :
    ((Block.measure (.text ⟨⟨0, 0⟩, ⟨⟨fun _ => ⟨20, 0, 10, 14⟩⟩, "Hi"⟩⟩)).2.render
        ⟨5, 6, 20, 14⟩).2
      = [DrawCmd.print 5 6 ⟨fun _ => ⟨20, 0, 10, 14⟩⟩ "Hi"] :=
  (text_render_centres ⟨⟨0, 0⟩, ⟨⟨fun _ => ⟨20, 0, 10, 14⟩⟩, "Hi"⟩⟩ ⟨5, 6, 20, 14⟩).2 rfl rfl

/-! ## Panel: degenerate cases -/

/-- C19. A panel without children, in either orientation and with any `Align`,
measures to `{0, 0}`; rendered into any rectangle it hands out no rectangle and
draws nothing.  For every panel (any number of children, any measured size)
and every rectangle, the divisions of the render have a divisor other than
zero: with every division failing on a zero divisor (as `checkedDiv` does), the
offsets and every child rectangle are still computed, and are the ones
`flowParams` and `childRect` give. -/
theorem degenerate_panels_do_not_fault (vertical : Bool) (align : Nat) (rect : Rect) :
    (Block.measure (PanelBlock.new vertical align [])).1 = ⟨0, 0⟩
      ∧ (Block.measure (PanelBlock.new vertical align [])).2.childRects rect = []
      ∧ ((Block.measure (PanelBlock.new vertical align [])).2.render rect).2 = []
      ∧ (∀ a : Int, checkedDiv a 0 = none)
      ∧ (∀ (measured : Dimensions) (blocks : List Block),
          PanelBlock.flowParamsChecked measured vertical align blocks rect
            = some (PanelBlock.flowParams measured vertical align blocks rect))
      ∧ (∀ (d : Dimensions) (x y : Int),
          PanelBlock.childRectChecked vertical align rect d x y
            = some (PanelBlock.childRect vertical align rect d x y)) := by
  refine ⟨rfl, rfl, rfl, fun a => by simp [checkedDiv],
    fun measured blocks => flowParamsChecked_eq measured vertical align blocks rect,
    fun d x y => childRectChecked_eq vertical align rect d x y⟩

/-! ## Panel: containment -/

/-- C20. A panel whose children all measure to a main-axis size that is not
negative is measured and then rendered into a rectangle that leaves a leftover
`>= 0`, with any `Align` and any mix of expandable and fixed children.  There
is one rectangle per child, in child order; each lies, along the main axis,
between the panel's origin and the panel's origin plus the allocated size; and
a rectangle of an earlier child ends no later than that of a later child
begins. -/
theorem children_contained_in_order (m : Dimensions) (vertical : Bool) (align : Nat)
    (blocks : List Block) (ds : List Dimensions) (rect : Rect)
    (hlen : ds.length = blocks.length)
    (hnn : ∀ b ∈ blocks, 0 ≤ (Block.measure b).1.main vertical)
    (hL : 0 ≤ rect.mainSize vertical
      - (Block.measure (.panel m vertical align blocks ds)).1.main vertical) :
    ((Block.measure (.panel m vertical align blocks ds)).2.childRects rect).length
        = blocks.length
      ∧ (∀ (i : Nat) (r : Rect),
          ((Block.measure (.panel m vertical align blocks ds)).2.childRects rect)[i]? = some r →
          rect.mainOrigin vertical ≤ r.mainOrigin vertical
            ∧ 0 ≤ r.mainSize vertical
            ∧ r.mainOrigin vertical + r.mainSize vertical
                ≤ rect.mainOrigin vertical + rect.mainSize vertical)
      ∧ (∀ (i j : Nat) (ri rj : Rect), i < j →
          ((Block.measure (.panel m vertical align blocks ds)).2.childRects rect)[i]? = some ri →
          ((Block.measure (.panel m vertical align blocks ds)).2.childRects rect)[j]? = some rj →
          ri.mainOrigin vertical + ri.mainSize vertical ≤ rj.mainOrigin vertical) := by
  have hL1 : 0 ≤ leftover vertical (Block.measure (.panel m vertical align blocks ds)).1 rect :=
    hL
  obtain ⟨hso, hpad, hshare, hfit⟩ := flowParams_bounds
    (Block.measure (.panel m vertical align blocks ds)).1 vertical align blocks rect hL1
  have hspans := mainSpans_measured m vertical align blocks ds rect hlen
  have hmain := panelSize_main m vertical align blocks ds
  simp only [panelSize] at hmain
  have hms : ∀ x ∈ blocks.map (fun b => b.measuredSize.main vertical +
      (if b.can_expand then
        (PanelBlock.flowParams (Block.measure (.panel m vertical align blocks ds)).1
          vertical align blocks rect).spacePerExpandableBlock else 0)), 0 ≤ x := by
    intro x hx
    obtain ⟨b, hb, rfl⟩ := List.mem_map.mp hx
    have h1 := hnn b hb
    simp only [Block.measuredSize]
    split_ifs
    · exact add_nonneg h1 hshare
    · simpa using h1
  have hlength : ((Block.measure (.panel m vertical align blocks ds)).2.childRects rect).length
      = blocks.length := by
    have := congrArg List.length hspans
    simpa [spansFrom_length] using this
  refine ⟨hlength, ?_, ?_⟩
  · intro i r hr
    have h1 : (((Block.measure (.panel m vertical align blocks ds)).2.childRects rect).map
        (Rect.mainSpan vertical))[i]? = some (r.mainSpan vertical) := by
      rw [List.getElem?_map, hr]; rfl
    rw [hspans] at h1
    have hend : rect.mainOrigin vertical
        + (PanelBlock.flowParams (Block.measure (.panel m vertical align blocks ds)).1
            vertical align blocks rect).startOffset
        + (blocks.map (fun b => b.measuredSize.main vertical +
            (if b.can_expand then
              (PanelBlock.flowParams (Block.measure (.panel m vertical align blocks ds)).1
                vertical align blocks rect).spacePerExpandableBlock else 0))).sum
        + (((blocks.map (fun b => b.measuredSize.main vertical +
            (if b.can_expand then
              (PanelBlock.flowParams (Block.measure (.panel m vertical align blocks ds)).1
                vertical align blocks rect).spacePerExpandableBlock else 0))).length - 1 : Nat)
            : Int)
          * (PanelBlock.flowParams (Block.measure (.panel m vertical align blocks ds)).1
              vertical align blocks rect).flowPadding
        ≤ rect.mainOrigin vertical + rect.mainSize vertical := by
      rw [sum_with_share, ← hmain, List.length_map]
      simp only [leftover] at hfit
      linarith
    obtain ⟨h2, h3, h4⟩ := spansFrom_contained _ _ _ _ hpad hms hend i _ h1
    simp only [Rect.mainSpan] at h2 h3 h4
    exact ⟨by linarith, h3, h4⟩
  · intro i j ri rj hij hri hrj
    have h1 : (((Block.measure (.panel m vertical align blocks ds)).2.childRects rect).map
        (Rect.mainSpan vertical))[i]? = some (ri.mainSpan vertical) := by
      rw [List.getElem?_map, hri]; rfl
    have h2 : (((Block.measure (.panel m vertical align blocks ds)).2.childRects rect).map
        (Rect.mainSpan vertical))[j]? = some (rj.mainSpan vertical) := by
      rw [List.getElem?_map, hrj]; rfl
    rw [hspans] at h1 h2
    exact spansFrom_ordered _ _ _ hpad hms i j _ _ hij h1 h2

/-- Witness for C20: one expandable and two fixed children, leftover 21 under
`CENTER`: the spans are [3, 13), [13, 44), [44, 53) inside [3, 53]. -/
theorem children_contained_in_order_witness :
    ((Block.measure (PanelBlock.new false CENTER
        [PaddingBlock.new 10 5, ExpandBlock.new (PaddingBlock.new 10 7),
         PaddingBlock.new 9 2])).2.childRects ⟨3, 0, 50, 9⟩).map (Rect.mainSpan false)
        = [(3, 10), (13, 31), (44, 9)]
      ∧ ∀ (i : Nat) (r : Rect),
          ((Block.measure (.panel ⟨0, 0⟩ false CENTER
            [PaddingBlock.new 10 5, ExpandBlock.new (PaddingBlock.new 10 7),
             PaddingBlock.new 9 2] [⟨0, 0⟩, ⟨0, 0⟩, ⟨0, 0⟩])).2.childRects
            ⟨3, 0, 50, 9⟩)[i]? = some r →
          Rect.mainOrigin false ⟨3, 0, 50, 9⟩ ≤ r.mainOrigin false
            ∧ 0 ≤ r.mainSize false
            ∧ r.mainOrigin false + r.mainSize false
                ≤ Rect.mainOrigin false ⟨3, 0, 50, 9⟩ + Rect.mainSize false ⟨3, 0, 50, 9⟩ :=
  ⟨by decide,
   (children_contained_in_order ⟨0, 0⟩ false CENTER
      [PaddingBlock.new 10 5, ExpandBlock.new (PaddingBlock.new 10 7), PaddingBlock.new 9 2]
      [⟨0, 0⟩, ⟨0, 0⟩, ⟨0, 0⟩] ⟨3, 0, 50, 9⟩ rfl
      (by
        intro b hb
        simp only [List.mem_cons, List.mem_singleton, List.not_mem_nil, or_false] at hb
        rcases hb with h | h | h <;> rw [h] <;> decide)
      (by decide)).2.1⟩
end LayoutUtils
